import Mathlib

/-!
# The trusted-peer hash table of the permissions module

A shallow embedding of `modules/permissions/hash.c` and the properties of its
insert and lookup operations.

Conventions of the embedding.

* A byte is a natural number.  A C string (`char*`) is the list of the bytes
  that precede its terminating NUL; a counted string (`str`) is the list of its
  `len` bytes.
* The table `struct trusted_list**` is the list of its buckets; a bucket, a
  chain linked through `next`, is the list of its entries from the head on.
* What `hash.c` takes from other headers or from the C library (the bucket
  count, the hash function, the regex engine, the attribute store) is a field
  of `Deps`; the theorems hold for every choice of them.
* `shm_malloc` is an oracle: `shm` says for each of the four allocation points
  of `hash_table_insert` whether the allocation succeeds.
-/

namespace Permissions

set_option maxRecDepth 8000

/-! ## Bytes and the C library's string functions -/

/-- The bytes of a string literal, without the terminator. -/
def cs (s : String) : List Nat := s.toList.map Char.toNat

/-- A list of bytes holds no NUL byte, as the content of a C string does. -/
def NulFree (s : List Nat) : Prop := ∀ c ∈ s, c ≠ 0

instance (s : List Nat) : Decidable (NulFree s) := by
  unfold NulFree; infer_instance

/-- The C locale's `tolower` on a byte. -/
def tolower (c : Nat) : Nat := if 65 ≤ c ∧ c ≤ 90 then c + 32 else c

/-- C `strlen`: the number of bytes before the terminator. -/
def strlen (s : List Nat) : Nat := s.length

/-- C `strcmp`: the difference of the first pair of bytes that differ, the end
of a string reading as the NUL terminator; zero when none differs up to a NUL. -/
def strcmp : List Nat → List Nat → Int
  | [], s2 => 0 - (s2.headD 0 : Int)
  | c1 :: s1, s2 =>
    if c1 ≠ s2.headD 0 then (c1 : Int) - (s2.headD 0 : Int)
    else if c1 = 0 then 0
    else strcmp s1 s2.tail

/-- C `strncasecmp`: as `strcmp` on the lower-cased bytes, over at most `n`
bytes. -/
def strncasecmp : List Nat → List Nat → Nat → Int
  | _, _, 0 => 0
  | s1, s2, n + 1 =>
    if tolower (s1.headD 0) ≠ tolower (s2.headD 0) then
      (tolower (s1.headD 0) : Int) - (tolower (s2.headD 0) : Int)
    else if tolower (s1.headD 0) = 0 then 0
    else strncasecmp s1.tail s2.tail n

/-- C `strncpy` into a buffer of `n` bytes: the first `n` bytes of the source,
padded with NUL bytes when the source is shorter. -/
def strncpy (src : List Nat) (n : Nat) : List Nat :=
  src.take n ++ List.replicate (n - src.length) 0

/-! ## What the file takes from its environment -/

/-- Modelled from the spec: the transport protocol codes of `enum sip_protos`,
declared outside `hash.c`; the spec lists them as `{ANY, UDP, TCP, TLS, SCTP}`,
and `hash.c` stores `PROTO_NONE` for the token `any`. -/
def PROTO_NONE : Int := 0

/-- Modelled from the spec: protocol code of UDP, see `PROTO_NONE`. -/
def PROTO_UDP : Int := 1

/-- Modelled from the spec: protocol code of TCP, see `PROTO_NONE`. -/
def PROTO_TCP : Int := 2

/-- Modelled from the spec: protocol code of TLS, see `PROTO_NONE`. -/
def PROTO_TLS : Int := 3

/-- Modelled from the spec: protocol code of SCTP, see `PROTO_NONE`. -/
def PROTO_SCTP : Int := 4

/-- The constants and functions `hash.c` uses and does not define. -/
structure Deps where
  /-- The bucket count, `PERM_HASH_SIZE` of `hash.h`. -/
  PERM_HASH_SIZE : Nat
  /-- The longest From URI a lookup accepts, `MAX_URI_SIZE`. -/
  MAX_URI_SIZE : Nat
  /-- The flag `AVP_VAL_STR` of `usr_avp.h`. -/
  AVP_VAL_STR : Nat
  /-- The flag `REG_NOSUB` of `regex.h`. -/
  REG_NOSUB : Nat
  /-- The call `core_hash(&s, 0, size)` of `hash_func.h`, as a function of `s` and `size`. -/
  core_hash : List Nat → Nat → Nat
  /-- The compiled patterns, `regex_t`. -/
  regex_t : Type
  /-- The call `regcomp(&preg, pattern, cflags)`: the compiled pattern when it returns zero. -/
  regcomp : List Nat → Nat → Option regex_t
  /-- The call `regexec(&preg, string, 0, 0, 0)`: zero when the string matches. -/
  regexec : regex_t → List Nat → Int
  /-- The result of `add_avp(flags, name, val)`: zero when the attribute is stored. -/
  add_avp : Nat → Int → List Nat → Int

/-- The macro `perm_hash(_s)`, that is `core_hash(&(_s), 0, PERM_HASH_SIZE)`. -/
def perm_hash (D : Deps) (s : List Nat) : Nat := D.core_hash s D.PERM_HASH_SIZE

/-- The outcome of each `shm_malloc` call of `hash_table_insert`: `true` when
the allocation succeeds. -/
structure shm where
  /-- The entry, `sizeof(*np)`. -/
  np : Bool
  /-- The address bytes, `np->src_ip.s`. -/
  src_ip : Bool
  /-- The pattern, `np->pattern`. -/
  pattern : Bool
  /-- The tag, `np->tag.s`. -/
  tag : Bool
deriving DecidableEq, Repr

/-- Every allocation succeeds. -/
def shm.ok : shm := { np := true, src_ip := true, pattern := true, tag := true }

/-! ## The data model -/

/-- One entry, `struct trusted_list` without its `next` link.  A null `pattern`
or a null `tag.s` is `none`. -/
structure trusted_list where
  /-- The source address, a counted string. -/
  src_ip : List Nat
  /-- The protocol code. -/
  proto : Int
  /-- The pattern, a C string or null. -/
  pattern : Option (List Nat)
  /-- The tag, a counted string with its bytes or null. -/
  tag : Option (List Nat)
deriving DecidableEq, Repr

/-- The table: its buckets in index order. -/
abbrev hash_table := List (List trusted_list)

/-- The static variables `tag_avp_type` and `tag_avp`; of the union `tag_avp`
the integer member `n` is kept, the one `match_hash_table` tests. -/
structure tag_avp_spec where
  /-- The static `tag_avp_type`. -/
  tag_avp_type : Nat
  /-- The static `tag_avp`, read as `tag_avp.n`. -/
  tag_avp : Int
deriving DecidableEq, Repr

/-- One call of `add_avp`, with its three arguments. -/
structure avp_call where
  /-- The first argument, the attribute flags. -/
  flags : Nat
  /-- The second argument, the attribute name. -/
  name : Int
  /-- The third argument, the string value. -/
  val : List Nat
deriving DecidableEq, Repr

/-- What `match_hash_table` reads of the message: the text `ip_addr2a` gives
for `msg->rcv.src_ip`, the protocol `msg->rcv.proto`, and the URI of the From
header, `none` when `parse_from_header` fails. -/
structure sip_msg where
  /-- The text of the source address. -/
  src_ip : List Nat
  /-- The transport protocol. -/
  proto : Int
  /-- The URI of the From header. -/
  from_uri : Option (List Nat)
deriving DecidableEq, Repr

/-! ## The operations -/

/-- The function `new_hash_table`: `PERM_HASH_SIZE` empty buckets, or null when the
allocation fails. -/
def new_hash_table (D : Deps) (alloc_ok : Bool) : Option hash_table :=
  if alloc_ok = false then none
  else some (List.replicate D.PERM_HASH_SIZE [])

/-- Lines 138 to 185 of `hash_table_insert`: the entry has its protocol code;
copy the strings and link the entry at the head of its bucket. -/
def hash_table_insert_entry (D : Deps) (m : shm) (table : hash_table)
    (np_proto : Int) (src_ip : List Nat) (pattern tag : Option (List Nat)) :
    Int × hash_table :=
  let np_src_ip_len := strlen src_ip
  if m.src_ip = false then (-1, table)
  else
    let np_src_ip := strncpy src_ip np_src_ip_len
    if pattern.isSome ∧ m.pattern = false then (-1, table)
    else
      if tag.isSome ∧ m.tag = false then (-1, table)
      else
        let np : trusted_list :=
          { src_ip := np_src_ip, proto := np_proto, pattern := pattern, tag := tag }
        let hash_val := perm_hash D np.src_ip
        (1, table.set hash_val (np :: table.getD hash_val []))

/-- The function `hash_table_insert`: the returned integer and the table after the
call. -/
def hash_table_insert (D : Deps) (m : shm) (table : hash_table)
    (src_ip proto : List Nat) (pattern tag : Option (List Nat)) :
    Int × hash_table :=
  if m.np = false then (-1, table)
  else if strcmp proto (cs "any") = 0 then
    hash_table_insert_entry D m table PROTO_NONE src_ip pattern tag
  else if strcmp proto (cs "udp") = 0 then
    hash_table_insert_entry D m table PROTO_UDP src_ip pattern tag
  else if strcmp proto (cs "tcp") = 0 then
    hash_table_insert_entry D m table PROTO_TCP src_ip pattern tag
  else if strcmp proto (cs "tls") = 0 then
    hash_table_insert_entry D m table PROTO_TLS src_ip pattern tag
  else if strcmp proto (cs "sctp") = 0 then
    hash_table_insert_entry D m table PROTO_SCTP src_ip pattern tag
  else if strcmp proto (cs "none") = 0 then (1, table)
  else (-1, table)

/-- How the loop of `match_hash_table` ends. -/
inductive scan_result where
  /-- The jump to `found` with `np` at the entry. -/
  | found (np : trusted_list)
  /-- The return on a `regcomp` failure. -/
  | regex_error
  /-- The end of the chain. -/
  | not_found
deriving DecidableEq, Repr

/-- The test of lines 215 to 217: same length, equal without regard to case,
and the entry's protocol is `PROTO_NONE` or the message's. -/
def candidate (np : trusted_list) (src_ip : List Nat) (proto : Int) : Bool :=
  decide (np.src_ip.length = strlen src_ip) &&
  decide (strncasecmp np.src_ip src_ip (strlen src_ip) = 0) &&
  (decide (np.proto = PROTO_NONE) || decide (np.proto = proto))

/-- The loop of lines 214 to 230 over one chain. -/
def match_scan (D : Deps) (src_ip : List Nat) (proto : Int) (uri_string : List Nat) :
    List trusted_list → scan_result
  | [] => scan_result.not_found
  | np :: next =>
    if candidate np src_ip proto = true then
      match np.pattern with
      | none => scan_result.found np
      | some pattern =>
        match D.regcomp pattern D.REG_NOSUB with
        | none => scan_result.regex_error
        | some preg =>
          if D.regexec preg uri_string ≠ 0 then match_scan D src_ip proto uri_string next
          else scan_result.found np
    else match_scan D src_ip proto uri_string next

/-- The label `found`, lines 232 to 241: the returned integer and the calls of
`add_avp` made. -/
def match_found (D : Deps) (g : tag_avp_spec) (np : trusted_list) : Int × List avp_call :=
  match np.tag with
  | some tag =>
    if g.tag_avp ≠ 0 then
      let call : avp_call :=
        { flags := g.tag_avp_type ||| D.AVP_VAL_STR, name := g.tag_avp, val := tag }
      if D.add_avp call.flags call.name call.val ≠ 0 then (-1, [call])
      else (1, [call])
    else (1, [])
  | none => (1, [])

/-- The C string in `uri_string` after lines 211 and 212: the copied bytes up to
the first NUL. -/
def uri_string (uri : List Nat) : List Nat := uri.takeWhile (fun c => c ≠ 0)

/-- The function `match_hash_table`: the returned integer and the calls of `add_avp`
made. -/
def match_hash_table (D : Deps) (g : tag_avp_spec) (table : hash_table) (msg : sip_msg) :
    Int × List avp_call :=
  match msg.from_uri with
  | none => (-1, [])
  | some uri =>
    if uri.length > D.MAX_URI_SIZE then (-1, [])
    else
      match match_scan D msg.src_ip msg.proto (uri_string uri)
          (table.getD (perm_hash D msg.src_ip) []) with
      | scan_result.found np => match_found D g np
      | scan_result.regex_error => (-1, [])
      | scan_result.not_found => (-1, [])

/-- The function `empty_hash_table`: every bucket index below `PERM_HASH_SIZE` is reset. -/
def empty_hash_table (D : Deps) (table : hash_table) : hash_table :=
  (List.range D.PERM_HASH_SIZE).foldl (fun t i => t.set i []) table

/-! ## The words of the specification -/

/-- The protocol code of a protocol token that names a transport or `any`;
`none` for every other token, the sentinel `none` among them. -/
def token_proto (proto : List Nat) : Option Int :=
  if proto = cs "any" then some PROTO_NONE
  else if proto = cs "udp" then some PROTO_UDP
  else if proto = cs "tcp" then some PROTO_TCP
  else if proto = cs "tls" then some PROTO_TLS
  else if proto = cs "sctp" then some PROTO_SCTP
  else none

/-- An address/protocol candidate in the words of the specification: the
entry's address has the length of the query's and equals it without regard to
case, and the entry's protocol is ANY or the query's. -/
def address_protocol_candidate (np : trusted_list) (src_ip : List Nat) (proto : Int) : Prop :=
  np.src_ip.length = src_ip.length ∧ np.src_ip.map tolower = src_ip.map tolower ∧
    (np.proto = PROTO_NONE ∨ np.proto = proto)

/-- A pattern is absent, or it compiles and the compiled pattern matches the
string. -/
def pattern_matches (D : Deps) (pattern : Option (List Nat)) (s : List Nat) : Prop :=
  match pattern with
  | none => True
  | some p => ∃ preg, D.regcomp p D.REG_NOSUB = some preg ∧ D.regexec preg s = 0

/-- The loop of `match_hash_table` stops at the entry when it reaches it: the entry
passes the test of lines 215 to 217 and its pattern is absent or matches the string. -/
def entry_matches (D : Deps) (np : trusted_list) (src_ip : List Nat) (proto : Int)
    (s : List Nat) : Prop :=
  candidate np src_ip proto = true ∧ pattern_matches D np.pattern s

/-- The loop of `match_hash_table` passes over the entry: the entry fails the test of
lines 215 to 217, or its pattern compiles and does not match the string. -/
def entry_skipped (D : Deps) (np : trusted_list) (src_ip : List Nat) (proto : Int)
    (s : List Nat) : Prop :=
  candidate np src_ip proto = false ∨
    ∃ p preg, np.pattern = some p ∧ D.regcomp p D.REG_NOSUB = some preg ∧
      D.regexec preg s ≠ 0

/-- The table holds an entry that matches the query in the words of the specification:
an address/protocol candidate whose pattern is absent or matches the URI of the message. -/
def has_matching_entry (D : Deps) (table : hash_table) (msg : sip_msg) : Prop :=
  ∃ bucket ∈ table, ∃ np ∈ bucket,
    address_protocol_candidate np msg.src_ip msg.proto ∧
      (np.pattern = none ∨
        ∃ uri, msg.from_uri = some uri ∧ pattern_matches D np.pattern (uri_string uri))

/-- Every address hashes to a bucket index of the table. -/
def hash_in_range (D : Deps) : Prop :=
  ∀ s : List Nat, D.core_hash s D.PERM_HASH_SIZE < D.PERM_HASH_SIZE

/-! ## A concrete environment

The theorems hold for every `Deps`.  To run the operations on concrete inputs
the environment below fixes one: 128 buckets, URIs of at most 1024 bytes, the
sum of the bytes as hash function, and a regex engine for patterns made of
literal bytes with an optional leading `^`. -/

/-- The string holds the pattern as a contiguous run of bytes. -/
def contains_run (p : List Nat) : List Nat → Bool
  | [] => p.isEmpty
  | c :: s => p.isPrefixOf (c :: s) || contains_run p s

/-- A regex engine for literal patterns: a pattern that ends in a backslash
(byte 92) does not compile; a compiled pattern with a leading `^` (byte 94)
matches the strings that start with its remaining bytes, any other pattern
the strings that contain its bytes. -/
def literal_regexec (preg : List Nat) (s : List Nat) : Int :=
  match preg with
  | 94 :: lit => if lit.isPrefixOf s then 0 else 1
  | lit => if contains_run lit s then 0 else 1

/-- The concrete environment. -/
def sampleDeps : Deps where
  PERM_HASH_SIZE := 128
  MAX_URI_SIZE := 1024
  AVP_VAL_STR := 2
  REG_NOSUB := 8
  core_hash := fun s size => if size = 0 then s.sum else s.sum % size
  regex_t := List Nat
  regcomp := fun pattern _ => if pattern.getLast? = some 92 then none else some pattern
  regexec := literal_regexec
  add_avp := fun _ _ _ => 0

/-- A tag binding: attribute type 0, attribute name 7. -/
def sampleTagAvp : tag_avp_spec := { tag_avp_type := 0, tag_avp := 7 }

/-- The empty table of the concrete environment. -/
def emptyTable : hash_table := List.replicate 128 []

/-- The entry of the row `10.0.0.5`, `any`, pattern `^sip:alice@`, no tag. -/
def aliceEntry : trusted_list :=
  { src_ip := cs "10.0.0.5", proto := PROTO_NONE, pattern := some (cs "^sip:alice@"),
    tag := none }

/-- The concrete environment with an attribute store that refuses every attribute:
`add_avp` returns -1. -/
def sampleDepsAvpFails : Deps := { sampleDeps with add_avp := fun _ _ _ => -1 }

/-- A From header with the URI `sip:anyone@x.com` on a UDP message from `10.0.0.5`. -/
def anyoneMsg : sip_msg :=
  { src_ip := cs "10.0.0.5", proto := PROTO_UDP, from_uri := some (cs "sip:anyone@x.com") }

/-- The bytes lines 211 and 212 write into the array `uri_string`: the `uri.len` bytes of
the URI and the terminator. -/
def uri_buffer (uri : List Nat) : List Nat := uri ++ [0]

/-- The loop of `match_hash_table` ends with an error at the entry when it reaches it: the
entry passes the test of lines 215 to 217 and its pattern does not compile. -/
def entry_aborts (D : Deps) (np : trusted_list) (src_ip : List Nat) (proto : Int) : Prop :=
  candidate np src_ip proto = true ∧
    ∃ p, np.pattern = some p ∧ D.regcomp p D.REG_NOSUB = none

/-- The entry of the row `10.0.0.5`, `any`, with a pattern that is a lone backslash, which
the literal regex engine does not compile, and the tag `bad`. -/
def badPatternEntry : trusted_list :=
  { src_ip := cs "10.0.0.5", proto := PROTO_NONE, pattern := some [92],
    tag := some (cs "bad") }

/-- The entry of the row `10.0.0.5`, `any`, no pattern, tag `peerA`. -/
def plainEntry : trusted_list :=
  { src_ip := cs "10.0.0.5", proto := PROTO_NONE, pattern := none,
    tag := some (cs "peerA") }

/-- The alternatives of a pattern in extended syntax without other operators: the runs of
bytes between the bars (byte 124). -/
def alternatives (p : List Nat) : List (List Nat) := p.splitOn 124

/-- A regex engine that heeds the syntax flag, as `regcomp` does: the compiled pattern
keeps bit 0 of the flags, which is `REG_EXTENDED` in the C library's `regex.h` where
`REG_NOSUB` is 8.  With the bit set a bar separates alternatives and the pattern matches
the strings that contain one of them; without it a bar is a byte like another and the
pattern matches the strings that contain all its bytes in a run. -/
def flag_regcomp (pattern : List Nat) (cflags : Nat) : Option (Bool × List Nat) :=
  some (cflags.testBit 0, pattern)

/-- The matching of the engine that heeds the syntax flag, see `flag_regcomp`. -/
def flag_regexec (preg : Bool × List Nat) (s : List Nat) : Int :=
  if preg.1 = true then
    if (alternatives preg.2).any (fun a => contains_run a s) = true then 0 else 1
  else if contains_run preg.2 s = true then 0 else 1

/-- The concrete environment with the regex engine that heeds the syntax flag. -/
def sampleDepsFlags : Deps where
  PERM_HASH_SIZE := 128
  MAX_URI_SIZE := 1024
  AVP_VAL_STR := 2
  REG_NOSUB := 8
  core_hash := fun s size => if size = 0 then s.sum else s.sum % size
  regex_t := Bool × List Nat
  regcomp := flag_regcomp
  regexec := flag_regexec
  add_avp := fun _ _ _ => 0

/-- The environment `D` with another `regcomp`. -/
def Deps.with_regcomp (D : Deps) (rc : List Nat → Nat → Option D.regex_t) : Deps :=
  { D with regcomp := rc }

/-- One call that changes a table: `hash_table_insert` with the outcome of its allocations
and its arguments, or `empty_hash_table`. -/
inductive table_op where
  /-- A call of `hash_table_insert`. -/
  | insert (m : shm) (src_ip proto : List Nat) (pattern tag : Option (List Nat))
  /-- A call of `empty_hash_table`. -/
  | empty
deriving DecidableEq, Repr

/-- The table after one call. -/
def apply_op (D : Deps) (table : hash_table) : table_op → hash_table
  | table_op.insert m src_ip proto pattern tag =>
    (hash_table_insert D m table src_ip proto pattern tag).2
  | table_op.empty => empty_hash_table D table

/-- The table reached from the one `new_hash_table` creates by a sequence of calls. -/
def run_ops (D : Deps) (ops : List table_op) : hash_table :=
  ops.foldl (apply_op D) (List.replicate D.PERM_HASH_SIZE [])

/-- The arguments of one `fprintf` call of `hash_table_print`, one line of the dump: the
bucket index, the counted address, the protocol code, the pattern or the string `NULL`,
the tag or the string `NULL`. -/
structure print_line where
  /-- The bucket index `i`. -/
  index : Nat
  /-- The address, `np->src_ip.len` bytes at `np->src_ip.s`. -/
  src_ip : List Nat
  /-- The protocol code `np->proto`. -/
  proto : Int
  /-- The string `np->pattern ? np->pattern : "NULL"`. -/
  pattern : List Nat
  /-- The string `np->tag.len ? np->tag.s : "NULL"`. -/
  tag : List Nat
deriving DecidableEq, Repr

/-- The `fprintf` call of lines 256 to 258 for the entry `np` of bucket `i`; the length of
an absent tag is zero. -/
def print_entry (i : Nat) (np : trusted_list) : print_line :=
  { index := i
    src_ip := np.src_ip
    proto := np.proto
    pattern := match np.pattern with
      | some p => p
      | none => cs "NULL"
    tag := match np.tag with
      | some t => if t.length ≠ 0 then t else cs "NULL"
      | none => cs "NULL" }

/-- The function `hash_table_print`: the table, which it only reads, and the lines it
writes, bucket after bucket from index 0 up and each chain from its head on. -/
def hash_table_print (D : Deps) (table : hash_table) : hash_table × List print_line :=
  (table,
    (List.range D.PERM_HASH_SIZE).flatMap
      (fun i => (table.getD i []).map (print_entry i)))

/-! ## The C library's string functions -/

theorem strcmp_self (s : List Nat) : strcmp s s = 0 := by
  induction s with
  | nil => simp [strcmp]
  | cons c s ih => simp [strcmp, ih]

theorem strcmp_eq_zero_iff (a b : List Nat) (ha : NulFree a) (hb : NulFree b) :
    strcmp a b = 0 ↔ a = b := by
  constructor
  · intro h
    induction a generalizing b with
    | nil =>
      cases b with
      | nil => rfl
      | cons d b =>
        have hd : d ≠ 0 := hb d (by simp)
        simp [strcmp] at h
        exact absurd h hd
    | cons c a ih =>
      have hc : c ≠ 0 := ha c (by simp)
      cases b with
      | nil =>
        simp [strcmp] at h
        omega
      | cons d b =>
        simp only [strcmp, List.headD_cons, List.tail_cons] at h
        by_cases hcd : c = d
        · subst hcd
          simp [hc] at h
          rw [ih b (fun x hx => ha x (by simp [hx])) (fun x hx => hb x (by simp [hx])) h]
        · simp [hcd] at h
          omega
  · rintro rfl
    exact strcmp_self a

theorem strncpy_strlen (s : List Nat) : strncpy s (strlen s) = s := by
  simp [strncpy, strlen]

theorem strncasecmp_self (s : List Nat) (n : Nat) : strncasecmp s s n = 0 := by
  induction n generalizing s with
  | zero => simp [strncasecmp]
  | succ n ih => simp [strncasecmp, ih]

theorem tolower_eq_zero (c : Nat) : tolower c = 0 ↔ c = 0 := by
  unfold tolower
  split <;> omega

theorem strncasecmp_eq_zero (a b : List Nat) (hlen : a.length = b.length) (hb : NulFree b) :
    strncasecmp a b b.length = 0 ↔ a.map tolower = b.map tolower := by
  induction b generalizing a with
  | nil =>
    cases a with
    | nil => simp [strncasecmp]
    | cons c a => simp at hlen
  | cons d b ih =>
    cases a with
    | nil => simp at hlen
    | cons c a =>
      have hd : d ≠ 0 := hb d (by simp)
      have hd0 : tolower d ≠ 0 := fun h => hd ((tolower_eq_zero d).1 h)
      have hlen2 : a.length = b.length := by simpa using hlen
      have ih2 := ih a hlen2 (fun x hx => hb x (by simp [hx]))
      simp only [List.length_cons, strncasecmp, List.headD_cons, List.tail_cons, List.map_cons,
        List.cons.injEq]
      by_cases hcd : tolower c = tolower d
      · simp [hcd, hd0, ih2]
      · simp [hcd]
        omega

/-! ## Buckets of a table -/

theorem getD_set_self (t : hash_table) (i : Nat) (b : List trusted_list) (h : i < t.length) :
    (t.set i b).getD i [] = b := by
  simp [List.getD_eq_getElem?_getD, h]

theorem getD_set_ne (t : hash_table) (i j : Nat) (b : List trusted_list) (h : i ≠ j) :
    (t.set i b).getD j [] = t.getD j [] := by
  simp [List.getD_eq_getElem?_getD, List.getElem?_set_ne h]

theorem getD_replicate_nil (n i : Nat) :
    (List.replicate n ([] : List trusted_list)).getD i [] = [] := by
  simp only [List.getD_eq_getElem?_getD, List.getElem?_replicate]
  split <;> rfl

/-! ## Insert -/

theorem nulFree_tokens :
    NulFree (cs "any") ∧ NulFree (cs "udp") ∧ NulFree (cs "tcp") ∧ NulFree (cs "tls") ∧
      NulFree (cs "sctp") ∧ NulFree (cs "none") := by
  decide

/-- The entry `hash_table_insert` builds from its arguments and a protocol code. -/
theorem hash_table_insert_entry_cases (D : Deps) (m : shm) (table : hash_table) (c : Int)
    (src_ip : List Nat) (pattern tag : Option (List Nat)) :
    hash_table_insert_entry D m table c src_ip pattern tag = (-1, table) ∨
    hash_table_insert_entry D m table c src_ip pattern tag =
      (1, table.set (perm_hash D src_ip)
        ({ src_ip := src_ip, proto := c, pattern := pattern, tag := tag } ::
          table.getD (perm_hash D src_ip) [])) := by
  unfold hash_table_insert_entry
  simp only [strncpy_strlen]
  split
  · exact Or.inl rfl
  · split
    · exact Or.inl rfl
    · split
      · exact Or.inl rfl
      · exact Or.inr rfl

theorem hash_table_insert_entry_ok (D : Deps) (table : hash_table) (c : Int)
    (src_ip : List Nat) (pattern tag : Option (List Nat)) :
    hash_table_insert_entry D shm.ok table c src_ip pattern tag =
      (1, table.set (perm_hash D src_ip)
        ({ src_ip := src_ip, proto := c, pattern := pattern, tag := tag } ::
          table.getD (perm_hash D src_ip) [])) := by
  simp [hash_table_insert_entry, strncpy_strlen, shm.ok]

/-- With a NUL-free token the chain of `strcmp` tests is a case distinction on the token. -/
theorem hash_table_insert_eq (D : Deps) (m : shm) (table : hash_table)
    (src_ip proto : List Nat) (pattern tag : Option (List Nat)) (hnul : NulFree proto) :
    hash_table_insert D m table src_ip proto pattern tag =
      if m.np = false then (-1, table)
      else
        match token_proto proto with
        | some c => hash_table_insert_entry D m table c src_ip pattern tag
        | none => if proto = cs "none" then (1, table) else (-1, table) := by
  obtain ⟨h1, h2, h3, h4, h5, h6⟩ := nulFree_tokens
  unfold hash_table_insert token_proto
  simp only [strcmp_eq_zero_iff proto _ hnul h1, strcmp_eq_zero_iff proto _ hnul h2,
    strcmp_eq_zero_iff proto _ hnul h3, strcmp_eq_zero_iff proto _ hnul h4,
    strcmp_eq_zero_iff proto _ hnul h5, strcmp_eq_zero_iff proto _ hnul h6]
  split
  · rfl
  · split
    · rfl
    · split
      · rfl
      · split
        · rfl
        · split
          · rfl
          · split
            · rfl
            · rfl

/-- Whatever the allocations do, the call fails and leaves the table as it was, or it is
skipped by the token `none` and leaves the table as it was, or it links one entry. -/
theorem hash_table_insert_cases (D : Deps) (m : shm) (table : hash_table)
    (src_ip proto : List Nat) (pattern tag : Option (List Nat)) :
    hash_table_insert D m table src_ip proto pattern tag = (-1, table) ∨
    (hash_table_insert D m table src_ip proto pattern tag = (1, table) ∧
      strcmp proto (cs "none") = 0) ∨
    ∃ c : Int, hash_table_insert D m table src_ip proto pattern tag =
      (1, table.set (perm_hash D src_ip)
        ({ src_ip := src_ip, proto := c, pattern := pattern, tag := tag } ::
          table.getD (perm_hash D src_ip) [])) := by
  have key : ∀ c : Int,
      hash_table_insert_entry D m table c src_ip pattern tag = (-1, table) ∨
      ∃ d : Int, hash_table_insert_entry D m table c src_ip pattern tag =
        (1, table.set (perm_hash D src_ip)
          ({ src_ip := src_ip, proto := d, pattern := pattern, tag := tag } ::
            table.getD (perm_hash D src_ip) [])) := by
    intro c
    rcases hash_table_insert_entry_cases D m table c src_ip pattern tag with h | h
    · exact Or.inl h
    · exact Or.inr ⟨c, h⟩
  unfold hash_table_insert
  split
  · exact Or.inl rfl
  · split
    · rcases key PROTO_NONE with h | h
      · exact Or.inl h
      · exact Or.inr (Or.inr h)
    · split
      · rcases key PROTO_UDP with h | h
        · exact Or.inl h
        · exact Or.inr (Or.inr h)
      · split
        · rcases key PROTO_TCP with h | h
          · exact Or.inl h
          · exact Or.inr (Or.inr h)
        · split
          · rcases key PROTO_TLS with h | h
            · exact Or.inl h
            · exact Or.inr (Or.inr h)
          · split
            · rcases key PROTO_SCTP with h | h
              · exact Or.inl h
              · exact Or.inr (Or.inr h)
            · split
              · rename_i hnone
                exact Or.inr (Or.inl ⟨rfl, hnone⟩)
              · exact Or.inl rfl

/-- C6: with every allocation succeeding, `hash_table_insert` returns -1 exactly when its
protocol token is none of the six literal tokens `any`, `udp`, `tcp`, `tls`, `sctp`, `none`;
a call that returns -1 leaves the table as it was; and `sip` is rejected in this way. -/
theorem hash_table_insert_unknown_protocol (D : Deps) (table : hash_table)
    (src_ip proto : List Nat) (pattern tag : Option (List Nat)) (hnul : NulFree proto) :
    ((hash_table_insert D shm.ok table src_ip proto pattern tag).1 = -1 ↔
      proto ∉ [cs "any", cs "udp", cs "tcp", cs "tls", cs "sctp", cs "none"]) ∧
    ((hash_table_insert D shm.ok table src_ip proto pattern tag).1 = -1 →
      (hash_table_insert D shm.ok table src_ip proto pattern tag).2 = table) ∧
    hash_table_insert D shm.ok table src_ip (cs "sip") pattern tag = (-1, table) := by
  refine ⟨?_, ?_, ?_⟩
  · rw [hash_table_insert_eq D shm.ok table src_ip proto pattern tag hnul]
    have hnp : (shm.ok.np = false) = False := by simp [shm.ok]
    simp only [hnp, if_false]
    by_cases h1 : proto = cs "any"
    · subst h1
      have ht : token_proto (cs "any") = some PROTO_NONE := by decide
      have hm : cs "any" ∈ [cs "any", cs "udp", cs "tcp", cs "tls", cs "sctp", cs "none"] := by
        decide
      simp [ht, hash_table_insert_entry_ok, hm]
    by_cases h2 : proto = cs "udp"
    · subst h2
      have ht : token_proto (cs "udp") = some PROTO_UDP := by decide
      have hm : cs "udp" ∈ [cs "any", cs "udp", cs "tcp", cs "tls", cs "sctp", cs "none"] := by
        decide
      simp [ht, hash_table_insert_entry_ok, hm]
    by_cases h3 : proto = cs "tcp"
    · subst h3
      have ht : token_proto (cs "tcp") = some PROTO_TCP := by decide
      have hm : cs "tcp" ∈ [cs "any", cs "udp", cs "tcp", cs "tls", cs "sctp", cs "none"] := by
        decide
      simp [ht, hash_table_insert_entry_ok, hm]
    by_cases h4 : proto = cs "tls"
    · subst h4
      have ht : token_proto (cs "tls") = some PROTO_TLS := by decide
      have hm : cs "tls" ∈ [cs "any", cs "udp", cs "tcp", cs "tls", cs "sctp", cs "none"] := by
        decide
      simp [ht, hash_table_insert_entry_ok, hm]
    by_cases h5 : proto = cs "sctp"
    · subst h5
      have ht : token_proto (cs "sctp") = some PROTO_SCTP := by decide
      have hm : cs "sctp" ∈ [cs "any", cs "udp", cs "tcp", cs "tls", cs "sctp", cs "none"] := by
        decide
      simp [ht, hash_table_insert_entry_ok, hm]
    have ht : token_proto proto = none := by simp [token_proto, h1, h2, h3, h4, h5]
    by_cases h6 : proto = cs "none"
    · subst h6
      have hm : cs "none" ∈ [cs "any", cs "udp", cs "tcp", cs "tls", cs "sctp", cs "none"] := by
        decide
      simp [ht, hm]
    · simp [ht, h1, h2, h3, h4, h5, h6]
  · intro h
    rcases hash_table_insert_cases D shm.ok table src_ip proto pattern tag with h0 | h0 | ⟨c, h0⟩
    · rw [h0]
    · rw [h0.1]
    · rw [h0] at h
      simp at h
  · rw [hash_table_insert_eq D shm.ok table src_ip (cs "sip") pattern tag (by decide)]
    have h : token_proto (cs "sip") = none := by decide
    have h2 : cs "sip" ≠ cs "none" := by decide
    simp [shm.ok, h, h2]

/-- C6, at a concrete input: the token `sip` on the empty table of 128 buckets. -/
theorem hash_table_insert_unknown_protocol_witness :
    NulFree (cs "sip") ∧
    (((hash_table_insert sampleDeps shm.ok emptyTable (cs "10.0.0.5") (cs "sip") none none).1
        = -1 ↔
      cs "sip" ∉ [cs "any", cs "udp", cs "tcp", cs "tls", cs "sctp", cs "none"]) ∧
    ((hash_table_insert sampleDeps shm.ok emptyTable (cs "10.0.0.5") (cs "sip") none none).1
        = -1 →
      (hash_table_insert sampleDeps shm.ok emptyTable (cs "10.0.0.5") (cs "sip") none none).2
        = emptyTable) ∧
    hash_table_insert sampleDeps shm.ok emptyTable (cs "10.0.0.5") (cs "sip") none none
      = (-1, emptyTable)) :=
  ⟨by decide,
    hash_table_insert_unknown_protocol sampleDeps emptyTable (cs "10.0.0.5") (cs "sip")
      none none (by decide)⟩

/-- C7, as stated, fails: in the concrete environment, when the allocation of the entry at
line 112 fails, `hash_table_insert` with the token `none` returns -1 and not 1; the table
it leaves is the table it was given. -/
theorem hash_table_insert_none_out_of_memory :
    hash_table_insert sampleDeps { np := false, src_ip := true, pattern := true, tag := true }
      emptyTable (cs "10.0.0.5") (cs "none") none none = (-1, emptyTable) := by
  decide

/-- C7, amended: `hash_table_insert` with the token `none` leaves the table it was given,
whatever the table, the address, the pattern, the tag and the outcome of the allocations,
so every lookup after the call gives what it gave before; it returns 1 when the entry
itself, which line 112 allocates before the token is looked at, can be allocated, and -1
when it cannot. -/
theorem hash_table_insert_none_skips (D : Deps) (m : shm) (table : hash_table)
    (src_ip : List Nat) (pattern tag : Option (List Nat)) :
    (hash_table_insert D m table src_ip (cs "none") pattern tag).2 = table ∧
    (∀ (g : tag_avp_spec) (msg : sip_msg),
      match_hash_table D g (hash_table_insert D m table src_ip (cs "none") pattern tag).2 msg =
        match_hash_table D g table msg) ∧
    (m.np = true →
      hash_table_insert D m table src_ip (cs "none") pattern tag = (1, table)) ∧
    (m.np = false →
      hash_table_insert D m table src_ip (cs "none") pattern tag = (-1, table)) := by
  have h : hash_table_insert D m table src_ip (cs "none") pattern tag =
      (if m.np = false then -1 else 1, table) := by
    rw [hash_table_insert_eq D m table src_ip (cs "none") pattern tag (by decide)]
    have h1 : token_proto (cs "none") = none := by decide
    by_cases hnp : m.np = false <;> simp [hnp, h1]
  refine ⟨by rw [h], fun g msg => by rw [h], ?_, ?_⟩
  · intro hnp
    rw [h]
    simp [hnp]
  · intro hnp
    rw [h]
    simp [hnp]

/-- C7 amended, at a concrete input: a table that holds one entry for the address, and the
row `10.0.0.5`, `none` with a pattern and a tag, every allocation succeeding. -/
theorem hash_table_insert_none_skips_witness :
    shm.ok.np = true ∧
    (hash_table_insert sampleDeps shm.ok
        (hash_table_insert sampleDeps shm.ok emptyTable (cs "10.0.0.5") (cs "udp") none none).2
        (cs "10.0.0.5") (cs "none") (some (cs "^sip:")) (some (cs "peerA")) =
      (1, (hash_table_insert sampleDeps shm.ok emptyTable (cs "10.0.0.5") (cs "udp")
        none none).2) ∧
    ∀ (g : tag_avp_spec) (msg : sip_msg),
      match_hash_table sampleDeps g (hash_table_insert sampleDeps shm.ok
        (hash_table_insert sampleDeps shm.ok emptyTable (cs "10.0.0.5") (cs "udp") none none).2
        (cs "10.0.0.5") (cs "none") (some (cs "^sip:")) (some (cs "peerA"))).2 msg =
      match_hash_table sampleDeps g
        (hash_table_insert sampleDeps shm.ok emptyTable (cs "10.0.0.5") (cs "udp")
          none none).2 msg) :=
  ⟨rfl,
    (hash_table_insert_none_skips sampleDeps shm.ok _ (cs "10.0.0.5")
      (some (cs "^sip:")) (some (cs "peerA"))).2.2.1 rfl,
    (hash_table_insert_none_skips sampleDeps shm.ok _ (cs "10.0.0.5")
      (some (cs "^sip:")) (some (cs "peerA"))).2.1⟩

/-- C8, as stated, fails: on the empty table of 128 buckets the call with the token `none`,
which adds nothing, and the call with the token `udp`, which adds an entry, return the same
integer. -/
theorem hash_table_insert_result_not_tristate :
    (hash_table_insert sampleDeps shm.ok emptyTable (cs "10.0.0.5") (cs "none") none none).1 =
      (hash_table_insert sampleDeps shm.ok emptyTable (cs "10.0.0.5") (cs "udp") none none).1 ∧
    (hash_table_insert sampleDeps shm.ok emptyTable (cs "10.0.0.5") (cs "none") none none).2 =
      emptyTable ∧
    (hash_table_insert sampleDeps shm.ok emptyTable (cs "10.0.0.5") (cs "udp") none none).2 ≠
      emptyTable := by
  decide

/-- C8, amended: `hash_table_insert` returns one of two integers.  It returns -1 when it
fails, and then the table is as it was; it returns 1 when it is skipped by a token that
compares equal to `none`, the table being as it was, and also 1 when it links an entry at
the head of the bucket of the address. -/
theorem hash_table_insert_result_two_valued (D : Deps) (m : shm) (table : hash_table)
    (src_ip proto : List Nat) (pattern tag : Option (List Nat)) :
    hash_table_insert D m table src_ip proto pattern tag = (-1, table) ∨
    (hash_table_insert D m table src_ip proto pattern tag = (1, table) ∧
      strcmp proto (cs "none") = 0) ∨
    ∃ c : Int, hash_table_insert D m table src_ip proto pattern tag =
      (1, table.set (perm_hash D src_ip)
        ({ src_ip := src_ip, proto := c, pattern := pattern, tag := tag } ::
          table.getD (perm_hash D src_ip) [])) :=
  hash_table_insert_cases D m table src_ip proto pattern tag

/-- C9: whatever the four allocations do, a call of `hash_table_insert` that returns -1
leaves the table as it was; and for a token that names a protocol, a failure of the
allocation of the entry, of the address, of a present pattern or of a present tag makes
the call return -1. -/
theorem hash_table_insert_failure_atomic (D : Deps) (m : shm) (table : hash_table)
    (src_ip proto : List Nat) (pattern tag : Option (List Nat))
    (hfail : (hash_table_insert D m table src_ip proto pattern tag).1 = -1) :
    (hash_table_insert D m table src_ip proto pattern tag).2 = table ∧
    ∀ m2 : shm, NulFree proto → (token_proto proto).isSome = true →
      (m2.np = false ∨ m2.src_ip = false ∨ (pattern.isSome = true ∧ m2.pattern = false) ∨
        (tag.isSome = true ∧ m2.tag = false)) →
      hash_table_insert D m2 table src_ip proto pattern tag = (-1, table) := by
  constructor
  · rcases hash_table_insert_cases D m table src_ip proto pattern tag with h0 | h0 | ⟨c, h0⟩
    · rw [h0]
    · rw [h0.1]
    · rw [h0] at hfail
      simp at hfail
  · intro m2 hnul htok hm
    rw [hash_table_insert_eq D m2 table src_ip proto pattern tag hnul]
    obtain ⟨c, hc⟩ := Option.isSome_iff_exists.1 htok
    rw [hc]
    by_cases h1 : m2.np = false
    · simp [h1]
    · simp only [h1, if_false]
      unfold hash_table_insert_entry
      by_cases h2 : m2.src_ip = false
      · simp [h2]
      · by_cases h3 : pattern.isSome = true ∧ m2.pattern = false
        · simp [h2, h3]
        · rcases hm with hm | hm | hm | hm
          · exact absurd hm h1
          · exact absurd hm h2
          · exact absurd hm h3
          · simp [h2, hm]

/-- C9, at a concrete input: the allocation of the tag fails. -/
theorem hash_table_insert_failure_atomic_witness :
    (hash_table_insert sampleDeps { np := true, src_ip := true, pattern := true, tag := false }
      emptyTable (cs "10.0.0.5") (cs "udp") (some (cs "^sip:")) (some (cs "peerA"))).1 = -1 ∧
    ((hash_table_insert sampleDeps { np := true, src_ip := true, pattern := true, tag := false }
      emptyTable (cs "10.0.0.5") (cs "udp") (some (cs "^sip:")) (some (cs "peerA"))).2 =
        emptyTable ∧
    ∀ m2 : shm, NulFree (cs "udp") → (token_proto (cs "udp")).isSome = true →
      (m2.np = false ∨ m2.src_ip = false ∨
        ((some (cs "^sip:")).isSome = true ∧ m2.pattern = false) ∨
        ((some (cs "peerA")).isSome = true ∧ m2.tag = false)) →
      hash_table_insert sampleDeps m2 emptyTable (cs "10.0.0.5") (cs "udp")
        (some (cs "^sip:")) (some (cs "peerA")) = (-1, emptyTable)) :=
  ⟨by decide,
    hash_table_insert_failure_atomic sampleDeps
      { np := true, src_ip := true, pattern := true, tag := false }
      emptyTable (cs "10.0.0.5") (cs "udp") (some (cs "^sip:")) (some (cs "peerA"))
      (by decide)⟩

/-- C10: a call of `hash_table_insert` that returns 1, with a token other than `none` and an
address that hashes to a bucket of the table, gives the token its protocol code, makes the
bucket of the address the new entry followed by what the bucket held, and leaves every
other bucket and the bucket count as they were; a second such call with the same arguments
puts a second copy of the entry in front. -/
theorem hash_table_insert_prepends (D : Deps) (m : shm) (table : hash_table)
    (src_ip proto : List Nat) (pattern tag : Option (List Nat))
    (hnul : NulFree proto) (hne : proto ≠ cs "none")
    (hhash : perm_hash D src_ip < table.length)
    (hok : (hash_table_insert D m table src_ip proto pattern tag).1 = 1) :
    ∃ c : Int, token_proto proto = some c ∧
      (hash_table_insert D m table src_ip proto pattern tag).2.getD (perm_hash D src_ip) [] =
        { src_ip := src_ip, proto := c, pattern := pattern, tag := tag } ::
          table.getD (perm_hash D src_ip) [] ∧
      (∀ i : Nat, i ≠ perm_hash D src_ip →
        (hash_table_insert D m table src_ip proto pattern tag).2.getD i [] =
          table.getD i []) ∧
      (hash_table_insert D m table src_ip proto pattern tag).2.length = table.length ∧
      ∀ m2 : shm,
        (hash_table_insert D m2 (hash_table_insert D m table src_ip proto pattern tag).2
          src_ip proto pattern tag).1 = 1 →
        (hash_table_insert D m2 (hash_table_insert D m table src_ip proto pattern tag).2
          src_ip proto pattern tag).2.getD (perm_hash D src_ip) [] =
          { src_ip := src_ip, proto := c, pattern := pattern, tag := tag } ::
            { src_ip := src_ip, proto := c, pattern := pattern, tag := tag } ::
              table.getD (perm_hash D src_ip) [] := by
  have step : ∀ (m1 : shm) (t : hash_table), perm_hash D src_ip < t.length →
      (hash_table_insert D m1 t src_ip proto pattern tag).1 = 1 →
      ∃ c : Int, token_proto proto = some c ∧
        hash_table_insert D m1 t src_ip proto pattern tag =
          (1, t.set (perm_hash D src_ip)
            ({ src_ip := src_ip, proto := c, pattern := pattern, tag := tag } ::
              t.getD (perm_hash D src_ip) [])) := by
    intro m1 t _ h1
    rw [hash_table_insert_eq D m1 t src_ip proto pattern tag hnul] at h1 ⊢
    by_cases hnp : m1.np = false
    · simp [hnp] at h1
    · simp only [hnp, if_false] at h1 ⊢
      cases htok : token_proto proto with
      | none => simp [htok, hne] at h1
      | some c =>
        simp only [htok] at h1 ⊢
        rcases hash_table_insert_entry_cases D m1 t c src_ip pattern tag with h0 | h0
        · rw [h0] at h1
          simp at h1
        · exact ⟨c, rfl, h0⟩
  obtain ⟨c, hc, heq⟩ := step m table hhash hok
  refine ⟨c, hc, ?_, ?_, ?_, ?_⟩
  · rw [heq]
    exact getD_set_self table _ _ hhash
  · intro i hi
    rw [heq]
    exact getD_set_ne table _ _ _ (Ne.symm hi)
  · rw [heq]
    simp
  · intro m2 h2
    rw [heq] at h2 ⊢
    have hlen : perm_hash D src_ip <
        (table.set (perm_hash D src_ip)
          ({ src_ip := src_ip, proto := c, pattern := pattern, tag := tag } ::
            table.getD (perm_hash D src_ip) [])).length := by
      simpa using hhash
    obtain ⟨c2, hc2, heq2⟩ := step m2 _ hlen h2
    have hcc : c2 = c := by
      rw [hc] at hc2
      exact (Option.some.inj hc2).symm
    subst hcc
    rw [heq2]
    simp only []
    rw [getD_set_self _ _ _ hlen, getD_set_self table _ _ hhash]

/-- C10, at a concrete input: the row `10.0.0.5`, `udp`, inserted into the empty table of
128 buckets. -/
theorem hash_table_insert_prepends_witness :
    NulFree (cs "udp") ∧ cs "udp" ≠ cs "none" ∧
    perm_hash sampleDeps (cs "10.0.0.5") < emptyTable.length ∧
    (hash_table_insert sampleDeps shm.ok emptyTable (cs "10.0.0.5") (cs "udp") none
      (some (cs "peerA"))).1 = 1 ∧
    ∃ c : Int, token_proto (cs "udp") = some c ∧
      (hash_table_insert sampleDeps shm.ok emptyTable (cs "10.0.0.5") (cs "udp") none
          (some (cs "peerA"))).2.getD (perm_hash sampleDeps (cs "10.0.0.5")) [] =
        { src_ip := cs "10.0.0.5", proto := c, pattern := none, tag := some (cs "peerA") } ::
          emptyTable.getD (perm_hash sampleDeps (cs "10.0.0.5")) [] ∧
      (∀ i : Nat, i ≠ perm_hash sampleDeps (cs "10.0.0.5") →
        (hash_table_insert sampleDeps shm.ok emptyTable (cs "10.0.0.5") (cs "udp") none
          (some (cs "peerA"))).2.getD i [] = emptyTable.getD i []) ∧
      (hash_table_insert sampleDeps shm.ok emptyTable (cs "10.0.0.5") (cs "udp") none
          (some (cs "peerA"))).2.length = emptyTable.length ∧
      ∀ m2 : shm,
        (hash_table_insert sampleDeps m2
          (hash_table_insert sampleDeps shm.ok emptyTable (cs "10.0.0.5") (cs "udp") none
            (some (cs "peerA"))).2
          (cs "10.0.0.5") (cs "udp") none (some (cs "peerA"))).1 = 1 →
        (hash_table_insert sampleDeps m2
          (hash_table_insert sampleDeps shm.ok emptyTable (cs "10.0.0.5") (cs "udp") none
            (some (cs "peerA"))).2
          (cs "10.0.0.5") (cs "udp") none (some (cs "peerA"))).2.getD
            (perm_hash sampleDeps (cs "10.0.0.5")) [] =
          { src_ip := cs "10.0.0.5", proto := c, pattern := none, tag := some (cs "peerA") } ::
            { src_ip := cs "10.0.0.5", proto := c, pattern := none,
              tag := some (cs "peerA") } ::
              emptyTable.getD (perm_hash sampleDeps (cs "10.0.0.5")) [] :=
  ⟨by decide, by decide, by decide, by decide,
    hash_table_insert_prepends sampleDeps shm.ok emptyTable (cs "10.0.0.5") (cs "udp") none
      (some (cs "peerA")) (by decide) (by decide) (by decide) (by decide)⟩

/-! ## Lookup -/

theorem uri_string_of_nulFree (uri : List Nat) (h : NulFree uri) : uri_string uri = uri := by
  unfold uri_string
  rw [List.takeWhile_eq_self_iff]
  intro c hc
  simpa using h c hc

theorem candidate_iff (np : trusted_list) (src_ip : List Nat) (proto : Int)
    (hnul : NulFree src_ip) :
    candidate np src_ip proto = true ↔ address_protocol_candidate np src_ip proto := by
  unfold candidate address_protocol_candidate strlen
  simp only [Bool.and_eq_true, Bool.or_eq_true, decide_eq_true_eq]
  constructor
  · rintro ⟨⟨h1, h2⟩, h3⟩
    exact ⟨h1, (strncasecmp_eq_zero _ _ h1 hnul).1 h2, h3⟩
  · rintro ⟨h1, h2, h3⟩
    exact ⟨⟨h1, (strncasecmp_eq_zero _ _ h1 hnul).2 h2⟩, h3⟩

theorem candidate_same_address (src_ip : List Nat) (c proto : Int)
    (pattern tag : Option (List Nat)) :
    candidate { src_ip := src_ip, proto := c, pattern := pattern, tag := tag } src_ip proto
      = true ↔ (c = PROTO_NONE ∨ c = proto) := by
  unfold candidate strlen
  simp [strncasecmp_self]

theorem match_scan_cons_of_matches (D : Deps) (src_ip : List Nat) (proto : Int)
    (s : List Nat) (np : trusted_list) (next : List trusted_list)
    (h : entry_matches D np src_ip proto s) :
    match_scan D src_ip proto s (np :: next) = scan_result.found np := by
  obtain ⟨hc, hp⟩ := h
  unfold match_scan
  rw [if_pos hc]
  cases hpat : np.pattern with
  | none => rfl
  | some p =>
    rw [hpat] at hp
    obtain ⟨preg, h1, h2⟩ := hp
    simp [h1, h2]

theorem match_scan_cons_of_skipped (D : Deps) (src_ip : List Nat) (proto : Int)
    (s : List Nat) (np : trusted_list) (next : List trusted_list)
    (h : entry_skipped D np src_ip proto s) :
    match_scan D src_ip proto s (np :: next) = match_scan D src_ip proto s next := by
  rcases h with h | ⟨p, preg, h1, h2, h3⟩
  · rw [match_scan]
    simp [h]
  · rw [match_scan]
    by_cases hc : candidate np src_ip proto = true
    · simp [hc, h1, h2, h3]
    · simp [hc]

theorem match_scan_append_of_skipped (D : Deps) (src_ip : List Nat) (proto : Int)
    (s : List Nat) (pre rest : List trusted_list)
    (h : ∀ x ∈ pre, entry_skipped D x src_ip proto s) :
    match_scan D src_ip proto s (pre ++ rest) = match_scan D src_ip proto s rest := by
  induction pre with
  | nil => rfl
  | cons x pre ih =>
    rw [List.cons_append, match_scan_cons_of_skipped D src_ip proto s x _ (h x (by simp))]
    exact ih (fun y hy => h y (by simp [hy]))

/-- The entry the loop stops at is the first entry of the chain it does not pass over. -/
theorem match_scan_found_split (D : Deps) (src_ip : List Nat) (proto : Int) (s : List Nat)
    (bucket : List trusted_list) (np : trusted_list)
    (h : match_scan D src_ip proto s bucket = scan_result.found np) :
    ∃ pre post, bucket = pre ++ np :: post ∧
      (∀ x ∈ pre, entry_skipped D x src_ip proto s) ∧ entry_matches D np src_ip proto s := by
  induction bucket with
  | nil => simp [match_scan] at h
  | cons x next ih =>
    rw [match_scan] at h
    by_cases hc : candidate x src_ip proto = true
    · rw [if_pos hc] at h
      cases hpat : x.pattern with
      | none =>
        simp only [hpat] at h
        cases h
        exact ⟨[], next, rfl, by simp, hc, by simp [pattern_matches, hpat]⟩
      | some p =>
        simp only [hpat] at h
        cases hre : D.regcomp p D.REG_NOSUB with
        | none => simp [hre] at h
        | some preg =>
          simp only [hre] at h
          by_cases hex : D.regexec preg s = 0
          · simp only [hex, ne_eq, not_true_eq_false, if_false] at h
            cases h
            exact ⟨[], next, rfl, by simp, hc, by
              simp only [pattern_matches, hpat]
              exact ⟨preg, hre, hex⟩⟩
          · simp only [ne_eq, hex, not_false_eq_true, if_true] at h
            obtain ⟨pre, post, h1, h2, h3⟩ := ih h
            refine ⟨x :: pre, post, by simp [h1], ?_, h3⟩
            intro y hy
            rcases List.mem_cons.1 hy with rfl | hy
            · exact Or.inr ⟨p, preg, hpat, hre, hex⟩
            · exact h2 y hy
    · rw [if_neg hc] at h
      obtain ⟨pre, post, h1, h2, h3⟩ := ih h
      refine ⟨x :: pre, post, by simp [h1], ?_, h3⟩
      intro y hy
      rcases List.mem_cons.1 hy with rfl | hy
      · exact Or.inl (by simpa using hc)
      · exact h2 y hy

theorem match_hash_table_eq (D : Deps) (g : tag_avp_spec) (table : hash_table) (msg : sip_msg)
    (uri : List Nat) (huri : msg.from_uri = some uri) (hlen : uri.length ≤ D.MAX_URI_SIZE) :
    match_hash_table D g table msg =
      match match_scan D msg.src_ip msg.proto (uri_string uri)
          (table.getD (perm_hash D msg.src_ip) []) with
      | scan_result.found np => match_found D g np
      | scan_result.regex_error => (-1, [])
      | scan_result.not_found => (-1, []) := by
  unfold match_hash_table
  simp only [huri]
  rw [if_neg (by omega)]

/-- A lookup that returns 1 went through the loop and stopped at an entry. -/
theorem match_hash_table_one (D : Deps) (g : tag_avp_spec) (table : hash_table) (msg : sip_msg)
    (h : (match_hash_table D g table msg).1 = 1) :
    ∃ uri np, msg.from_uri = some uri ∧ uri.length ≤ D.MAX_URI_SIZE ∧
      match_scan D msg.src_ip msg.proto (uri_string uri)
        (table.getD (perm_hash D msg.src_ip) []) = scan_result.found np := by
  unfold match_hash_table at h
  cases huri : msg.from_uri with
  | none => simp [huri] at h
  | some uri =>
    simp only [huri] at h
    by_cases hlen : uri.length > D.MAX_URI_SIZE
    · simp [hlen] at h
    · rw [if_neg hlen] at h
      cases hscan : match_scan D msg.src_ip msg.proto (uri_string uri)
          (table.getD (perm_hash D msg.src_ip) []) with
      | found np => exact ⟨uri, np, rfl, by omega, hscan⟩
      | regex_error =>
        rw [hscan] at h
        simp at h
      | not_found =>
        rw [hscan] at h
        simp at h

theorem match_found_no_tag (D : Deps) (g : tag_avp_spec) (np : trusted_list)
    (h : np.tag = none) : match_found D g np = (1, []) := by
  simp [match_found, h]

/-- The label `found` returns 1 when forwarding the tag does not fail: the entry has no
tag, no tag binding is set, or `add_avp` returns 0. -/
theorem match_found_ok (D : Deps) (g : tag_avp_spec) (np : trusted_list)
    (h : ∀ t, np.tag = some t → g.tag_avp ≠ 0 →
      D.add_avp (g.tag_avp_type ||| D.AVP_VAL_STR) g.tag_avp t = 0) :
    (match_found D g np).1 = 1 := by
  unfold match_found
  cases ht : np.tag with
  | none => rfl
  | some t =>
    by_cases hg : g.tag_avp = 0
    · simp [hg]
    · simp [hg, h t ht hg]

theorem getD_set_nil_self (t : hash_table) (i : Nat) : (t.set i []).getD i [] = [] := by
  simp only [List.getD_eq_getElem?_getD, List.getElem?_set]
  by_cases h : i < t.length <;> simp [h]

/-- After `empty_hash_table` every bucket below `PERM_HASH_SIZE` is empty and the others
are as they were. -/
theorem empty_hash_table_getD (D : Deps) (table : hash_table) (i : Nat) :
    (empty_hash_table D table).getD i [] =
      if i < D.PERM_HASH_SIZE then [] else table.getD i [] := by
  unfold empty_hash_table
  generalize D.PERM_HASH_SIZE = n
  induction n with
  | zero => simp
  | succ n ih =>
    rw [List.range_succ, List.foldl_append]
    simp only [List.foldl_cons, List.foldl_nil]
    by_cases hin : i = n
    · subst hin
      rw [getD_set_nil_self]
      simp
    · rw [getD_set_ne _ _ _ _ (Ne.symm hin), ih]
      by_cases h1 : i < n
      · simp [h1, Nat.lt_succ_of_lt h1]
      · have h2 : ¬ i < n + 1 := by omega
        simp [h1, h2]

theorem empty_hash_table_length (D : Deps) (table : hash_table) :
    (empty_hash_table D table).length = table.length := by
  unfold empty_hash_table
  generalize D.PERM_HASH_SIZE = n
  induction n with
  | zero => simp
  | succ n ih =>
    rw [List.range_succ, List.foldl_append]
    simp only [List.foldl_cons, List.foldl_nil, List.length_set]
    exact ih

theorem match_hash_table_empty_bucket (D : Deps) (g : tag_avp_spec) (table : hash_table)
    (msg : sip_msg) (h : table.getD (perm_hash D msg.src_ip) [] = []) :
    match_hash_table D g table msg = (-1, []) := by
  unfold match_hash_table
  rw [h]
  cases msg.from_uri with
  | none => rfl
  | some uri =>
    simp only [match_scan]
    split <;> rfl

theorem mem_of_mem_getD (table : hash_table) (i : Nat) (np : trusted_list)
    (h : np ∈ table.getD i []) : table.getD i [] ∈ table := by
  by_cases hi : i < table.length
  · rw [List.getD_eq_getElem _ _ hi]
    exact List.getElem_mem hi
  · rw [List.getD_eq_default _ _ (by omega)] at h
    simp at h

/-- C3: a lookup returns 1 only if the table holds an entry whose address has the length
of the query address and equals it without regard to case, whose protocol is ANY or the
query protocol, and whose pattern is absent or matches the URI; when the table holds no
such entry the lookup returns -1 and forwards nothing; and on a table just created, or
just emptied, every lookup returns -1 and forwards nothing. -/
theorem match_hash_table_sound (D : Deps) (g : tag_avp_spec) (table : hash_table)
    (msg : sip_msg) (hnul : NulFree msg.src_ip) :
    ((match_hash_table D g table msg).1 = 1 → has_matching_entry D table msg) ∧
    (¬ has_matching_entry D table msg → match_hash_table D g table msg = (-1, [])) ∧
    (∀ (alloc_ok : Bool) (t : hash_table), new_hash_table D alloc_ok = some t →
      match_hash_table D g t msg = (-1, [])) ∧
    (table.length = D.PERM_HASH_SIZE →
      match_hash_table D g (empty_hash_table D table) msg = (-1, [])) := by
  have found_has : ∀ uri np, msg.from_uri = some uri →
      match_scan D msg.src_ip msg.proto (uri_string uri)
        (table.getD (perm_hash D msg.src_ip) []) = scan_result.found np →
      has_matching_entry D table msg := by
    intro uri np huri hscan
    obtain ⟨pre, post, hb, _, hc, hp⟩ := match_scan_found_split D _ _ _ _ np hscan
    have hmem : np ∈ table.getD (perm_hash D msg.src_ip) [] := by
      rw [hb]
      simp
    exact ⟨_, mem_of_mem_getD table _ np hmem, np, hmem,
      (candidate_iff np msg.src_ip msg.proto hnul).1 hc, Or.inr ⟨uri, huri, hp⟩⟩
  refine ⟨?_, ?_, ?_, ?_⟩
  · intro h
    obtain ⟨uri, np, huri, _, hscan⟩ := match_hash_table_one D g table msg h
    exact found_has uri np huri hscan
  · intro hno
    unfold match_hash_table
    cases huri : msg.from_uri with
    | none => rfl
    | some uri =>
      simp only []
      split
      · rfl
      · cases hscan : match_scan D msg.src_ip msg.proto (uri_string uri)
            (table.getD (perm_hash D msg.src_ip) []) with
        | found np => exact absurd (found_has uri np huri hscan) hno
        | regex_error => rfl
        | not_found => rfl
  · intro alloc_ok t ht
    unfold new_hash_table at ht
    split at ht
    · cases ht
    · cases ht
      exact match_hash_table_empty_bucket D g _ msg (getD_replicate_nil _ _)
  · intro hlen
    apply match_hash_table_empty_bucket
    rw [empty_hash_table_getD]
    split
    · rfl
    · apply List.getD_eq_default
      omega

/-- C3, at a concrete input: a table with one `udp` entry and a `udp` query from its
address. -/
theorem match_hash_table_sound_witness :
    NulFree (cs "10.0.0.5") ∧
    (match_hash_table sampleDeps sampleTagAvp
      (hash_table_insert sampleDeps shm.ok emptyTable (cs "10.0.0.5") (cs "udp") none none).2
      { src_ip := cs "10.0.0.5", proto := PROTO_UDP, from_uri := some (cs "sip:a@x.com") }).1
        = 1 ∧
    has_matching_entry sampleDeps
      (hash_table_insert sampleDeps shm.ok emptyTable (cs "10.0.0.5") (cs "udp") none none).2
      { src_ip := cs "10.0.0.5", proto := PROTO_UDP, from_uri := some (cs "sip:a@x.com") } :=
  ⟨by decide, by decide,
    (match_hash_table_sound sampleDeps sampleTagAvp
      (hash_table_insert sampleDeps shm.ok emptyTable (cs "10.0.0.5") (cs "udp") none none).2
      { src_ip := cs "10.0.0.5", proto := PROTO_UDP, from_uri := some (cs "sip:a@x.com") }
      (by decide)).1 (by decide)⟩

/-- C4: with every allocation succeeding, the token `any` stores an entry with protocol
`PROTO_NONE`, and that entry passes the address/protocol test of a query from the same
address with any protocol, UDP, TCP, TLS and SCTP among them; each of the tokens `udp`,
`tcp`, `tls`, `sctp` stores an entry with its own protocol code, and that entry passes the
test of a query from the same address exactly when the query has that protocol; a `tcp`
entry alone in a new table gives a UDP query from its address the result -1. -/
theorem protocol_wildcard (D : Deps) (g : tag_avp_spec) (table : hash_table)
    (src_ip : List Nat) (pattern tag : Option (List Nat)) :
    (hash_table_insert D shm.ok table src_ip (cs "any") pattern tag =
      (1, table.set (perm_hash D src_ip)
        ({ src_ip := src_ip, proto := PROTO_NONE, pattern := pattern, tag := tag } ::
          table.getD (perm_hash D src_ip) []))) ∧
    (∀ q : Int,
      candidate { src_ip := src_ip, proto := PROTO_NONE, pattern := pattern, tag := tag }
        src_ip q = true) ∧
    (∀ tc ∈ [(cs "udp", PROTO_UDP), (cs "tcp", PROTO_TCP), (cs "tls", PROTO_TLS),
        (cs "sctp", PROTO_SCTP)],
      hash_table_insert D shm.ok table src_ip tc.1 pattern tag =
        (1, table.set (perm_hash D src_ip)
          ({ src_ip := src_ip, proto := tc.2, pattern := pattern, tag := tag } ::
            table.getD (perm_hash D src_ip) [])) ∧
      ∀ q : Int,
        candidate { src_ip := src_ip, proto := tc.2, pattern := pattern, tag := tag }
          src_ip q = true ↔ q = tc.2) ∧
    (∀ (alloc_ok : Bool) (t : hash_table) (uri : Option (List Nat)),
      new_hash_table D alloc_ok = some t →
      match_hash_table D g (hash_table_insert D shm.ok t src_ip (cs "tcp") pattern tag).2
        { src_ip := src_ip, proto := PROTO_UDP, from_uri := uri } = (-1, [])) := by
  have hins : ∀ (t : hash_table) (tok : List Nat) (c : Int), NulFree tok →
      token_proto tok = some c →
      hash_table_insert D shm.ok t src_ip tok pattern tag =
        (1, t.set (perm_hash D src_ip)
          ({ src_ip := src_ip, proto := c, pattern := pattern, tag := tag } ::
            t.getD (perm_hash D src_ip) [])) := by
    intro t tok c hnul htok
    rw [hash_table_insert_eq D shm.ok t src_ip tok pattern tag hnul, htok]
    have hnp : (shm.ok.np = false) = False := by simp [shm.ok]
    simp only [hnp, if_false]
    exact hash_table_insert_entry_ok D t c src_ip pattern tag
  refine ⟨hins table _ _ (by decide) (by decide), ?_, ?_, ?_⟩
  · intro q
    exact (candidate_same_address src_ip PROTO_NONE q pattern tag).2 (Or.inl rfl)
  · intro tc htc
    simp only [List.mem_cons, List.mem_singleton, List.not_mem_nil, or_false] at htc
    rcases htc with rfl | rfl | rfl | rfl
    · refine ⟨hins table _ _ (by decide) (by decide), fun q => ?_⟩
      rw [candidate_same_address]
      simp only [PROTO_UDP, PROTO_NONE]
      omega
    · refine ⟨hins table _ _ (by decide) (by decide), fun q => ?_⟩
      rw [candidate_same_address]
      simp only [PROTO_TCP, PROTO_NONE]
      omega
    · refine ⟨hins table _ _ (by decide) (by decide), fun q => ?_⟩
      rw [candidate_same_address]
      simp only [PROTO_TLS, PROTO_NONE]
      omega
    · refine ⟨hins table _ _ (by decide) (by decide), fun q => ?_⟩
      rw [candidate_same_address]
      simp only [PROTO_SCTP, PROTO_NONE]
      omega
  · intro alloc_ok t uri ht
    unfold new_hash_table at ht
    split at ht
    · cases ht
    · cases ht
      rw [hins _ (cs "tcp") PROTO_TCP (by decide) (by decide)]
      have hc : candidate
          { src_ip := src_ip, proto := PROTO_TCP, pattern := pattern, tag := tag }
          src_ip PROTO_UDP = false := by
        rw [← Bool.not_eq_true, candidate_same_address]
        decide
      unfold match_hash_table
      cases uri with
      | none => rfl
      | some u =>
        simp only []
        split
        · rfl
        · by_cases hh : perm_hash D src_ip < D.PERM_HASH_SIZE
          · rw [getD_set_self _ _ _ (by simpa using hh), getD_replicate_nil,
              match_scan_cons_of_skipped D src_ip PROTO_UDP _ _ _ (Or.inl hc)]
            simp [match_scan]
          · rw [List.set_eq_of_length_le (by simpa using Nat.le_of_not_lt hh),
              getD_replicate_nil]
            simp [match_scan]

/-- C4, at a concrete input: the row `10.0.0.5`, `tcp` alone in the new table of 128
buckets, and a UDP lookup from `10.0.0.5`. -/
theorem protocol_wildcard_witness :
    new_hash_table sampleDeps true = some emptyTable ∧
    match_hash_table sampleDeps sampleTagAvp
        (hash_table_insert sampleDeps shm.ok emptyTable (cs "10.0.0.5") (cs "tcp")
          none none).2
        { src_ip := cs "10.0.0.5", proto := PROTO_UDP,
          from_uri := some (cs "sip:anyone@x.com") } = (-1, []) :=
  ⟨rfl,
    (protocol_wildcard sampleDeps sampleTagAvp emptyTable (cs "10.0.0.5") none none).2.2.2
      true emptyTable (some (cs "sip:anyone@x.com")) rfl⟩

/-- C5, as stated, fails: in the concrete environment the table holds one entry, the only
candidate of the query, whose pattern compiles and matches the URI, and the lookup does
not report a match.  First the pattern `^sip:alice@` matches `sip:alice@example.com`, the
entry has the tag `peerA` and the attribute store refuses it: the lookup returns -1.
Second the pattern `a` matches a URI of 1025 bytes `a`, one more than the limit: the
lookup returns -1. -/
theorem pattern_gate_fails_at_lookup :
    sampleDepsAvpFails.regcomp (cs "^sip:alice@") sampleDepsAvpFails.REG_NOSUB =
      some (cs "^sip:alice@") ∧
    sampleDepsAvpFails.regexec (cs "^sip:alice@") (cs "sip:alice@example.com") = 0 ∧
    (hash_table_insert sampleDepsAvpFails shm.ok emptyTable (cs "10.0.0.5") (cs "any")
      (some (cs "^sip:alice@")) (some (cs "peerA"))).2.getD
        (perm_hash sampleDepsAvpFails (cs "10.0.0.5")) [] =
      [{ src_ip := cs "10.0.0.5", proto := PROTO_NONE, pattern := some (cs "^sip:alice@"),
         tag := some (cs "peerA") }] ∧
    match_hash_table sampleDepsAvpFails sampleTagAvp
      (hash_table_insert sampleDepsAvpFails shm.ok emptyTable (cs "10.0.0.5") (cs "any")
        (some (cs "^sip:alice@")) (some (cs "peerA"))).2
      { src_ip := cs "10.0.0.5", proto := PROTO_UDP,
        from_uri := some (cs "sip:alice@example.com") } =
      (-1, [{ flags := 2, name := 7, val := cs "peerA" }]) ∧
    sampleDeps.regcomp (cs "a") sampleDeps.REG_NOSUB = some (cs "a") ∧
    sampleDeps.regexec (cs "a") (uri_string (List.replicate 1025 97)) = 0 ∧
    match_hash_table sampleDeps sampleTagAvp
      (hash_table_insert sampleDeps shm.ok emptyTable (cs "10.0.0.5") (cs "any")
        (some (cs "a")) none).2
      { src_ip := cs "10.0.0.5", proto := PROTO_UDP,
        from_uri := some (List.replicate 1025 97) } = (-1, []) := by
  refine ⟨rfl, by decide, by decide, by decide, rfl, by decide, by decide⟩

/-- C5, amended: in a chain whose only entry that passes the address/protocol test of the
query is `e`, with a pattern that compiles, the loop of `match_hash_table` stops at `e`
exactly when `regexec` reports a match of the compiled pattern on the URI string, and
otherwise runs to the end of the chain; an entry that passes the test and whose pattern
does not match is passed over, the loop going on with the next entries.  For a table with
such a chain in the bucket of the query and a From URI of at most `MAX_URI_SIZE` bytes, the
lookup ends at the label `found` with `e` when the pattern matches and returns -1 without
forwarding a tag when it does not; so, when forwarding the tag of `e` does not fail (`e`
has no tag, no tag binding is set, or `add_avp` returns 0), the lookup returns 1 if and
only if the pattern matches the URI, and when the pattern matches and `add_avp` fails it
returns -1. -/
theorem pattern_gate (D : Deps) (src_ip : List Nat) (proto : Int) (s : List Nat)
    (pre post : List trusted_list) (e : trusted_list) (p : List Nat) (preg : D.regex_t)
    (hpre : ∀ x ∈ pre, candidate x src_ip proto = false)
    (hpost : ∀ x ∈ post, candidate x src_ip proto = false)
    (hc : candidate e src_ip proto = true) (hp : e.pattern = some p)
    (hre : D.regcomp p D.REG_NOSUB = some preg) :
    (match_scan D src_ip proto s (pre ++ e :: post) = scan_result.found e ↔
      D.regexec preg s = 0) ∧
    (D.regexec preg s ≠ 0 →
      match_scan D src_ip proto s (pre ++ e :: post) = scan_result.not_found) ∧
    (∀ next : List trusted_list, D.regexec preg s ≠ 0 →
      match_scan D src_ip proto s (e :: next) = match_scan D src_ip proto s next) ∧
    (∀ (g : tag_avp_spec) (table : hash_table) (msg : sip_msg) (uri : List Nat),
      msg.src_ip = src_ip → msg.proto = proto → msg.from_uri = some uri →
      uri.length ≤ D.MAX_URI_SIZE → uri_string uri = s →
      table.getD (perm_hash D src_ip) [] = pre ++ e :: post →
      (match_hash_table D g table msg =
        if D.regexec preg s = 0 then match_found D g e else (-1, [])) ∧
      ((∀ t, e.tag = some t → g.tag_avp ≠ 0 →
          D.add_avp (g.tag_avp_type ||| D.AVP_VAL_STR) g.tag_avp t = 0) →
        ((match_hash_table D g table msg).1 = 1 ↔ D.regexec preg s = 0)) ∧
      (∀ t, e.tag = some t → g.tag_avp ≠ 0 →
          D.add_avp (g.tag_avp_type ||| D.AVP_VAL_STR) g.tag_avp t ≠ 0 →
        (match_hash_table D g table msg).1 = -1)) := by
  have hskip_pre : ∀ x ∈ pre, entry_skipped D x src_ip proto s :=
    fun x hx => Or.inl (hpre x hx)
  have hskip_post : ∀ x ∈ post, entry_skipped D x src_ip proto s :=
    fun x hx => Or.inl (hpost x hx)
  have hend : match_scan D src_ip proto s post = scan_result.not_found := by
    have h := match_scan_append_of_skipped D src_ip proto s post [] hskip_post
    rw [List.append_nil] at h
    rw [h]
    rfl
  have hyes : D.regexec preg s = 0 →
      match_scan D src_ip proto s (pre ++ e :: post) = scan_result.found e := by
    intro hex
    rw [match_scan_append_of_skipped D src_ip proto s pre _ hskip_pre]
    apply match_scan_cons_of_matches
    refine ⟨hc, ?_⟩
    rw [hp]
    exact ⟨preg, hre, hex⟩
  have hno : D.regexec preg s ≠ 0 →
      match_scan D src_ip proto s (pre ++ e :: post) = scan_result.not_found := by
    intro hex
    rw [match_scan_append_of_skipped D src_ip proto s pre _ hskip_pre,
      match_scan_cons_of_skipped D src_ip proto s e post (Or.inr ⟨p, preg, hp, hre, hex⟩)]
    exact hend
  refine ⟨⟨?_, hyes⟩, hno, ?_, ?_⟩
  · intro hfound
    by_contra hex
    rw [hno hex] at hfound
    cases hfound
  · intro next hex
    exact match_scan_cons_of_skipped D src_ip proto s e next
      (Or.inr ⟨p, preg, hp, hre, hex⟩)
  · intro g table msg uri hsrc hproto huri hlen hs hbucket
    have hmht : match_hash_table D g table msg =
        if D.regexec preg s = 0 then match_found D g e else (-1, []) := by
      rw [match_hash_table_eq D g table msg uri huri hlen, hsrc, hproto, hs, hbucket]
      by_cases hex : D.regexec preg s = 0
      · rw [hyes hex, if_pos hex]
      · rw [hno hex, if_neg hex]
    refine ⟨hmht, ?_, ?_⟩
    · intro hfw
      rw [hmht]
      by_cases hex : D.regexec preg s = 0
      · rw [if_pos hex]
        exact ⟨fun _ => hex, fun _ => match_found_ok D g e hfw⟩
      · rw [if_neg hex]
        exact ⟨fun h => by simp at h, fun h => absurd h hex⟩
    · intro t ht hg hfail
      rw [hmht]
      by_cases hex : D.regexec preg s = 0
      · rw [if_pos hex]
        unfold match_found
        simp [ht, hg, hfail]
      · rw [if_neg hex]

/-- C5 amended, at a concrete input: the entry `10.0.0.5`, ANY, pattern `^sip:alice@`, no
tag, alone in its chain, with the literal regex engine; the UDP lookup from `10.0.0.5`
returns 1 for the URI `sip:alice@example.com`, which the pattern matches, and -1 for the
URI `sip:bob@example.com`, which it does not. -/
theorem pattern_gate_witness :
    candidate aliceEntry (cs "10.0.0.5") PROTO_UDP = true ∧
    aliceEntry.pattern = some (cs "^sip:alice@") ∧
    sampleDeps.regcomp (cs "^sip:alice@") sampleDeps.REG_NOSUB = some (cs "^sip:alice@") ∧
    (cs "sip:alice@example.com").length ≤ sampleDeps.MAX_URI_SIZE ∧
    (hash_table_insert sampleDeps shm.ok emptyTable (cs "10.0.0.5") (cs "any")
      (some (cs "^sip:alice@")) none).2.getD (perm_hash sampleDeps (cs "10.0.0.5")) [] =
      [] ++ aliceEntry :: [] ∧
    sampleDeps.regexec (cs "^sip:alice@") (cs "sip:alice@example.com") = 0 ∧
    sampleDeps.regexec (cs "^sip:alice@") (cs "sip:bob@example.com") ≠ 0 ∧
    (match_hash_table sampleDeps sampleTagAvp
      (hash_table_insert sampleDeps shm.ok emptyTable (cs "10.0.0.5") (cs "any")
        (some (cs "^sip:alice@")) none).2
      { src_ip := cs "10.0.0.5", proto := PROTO_UDP,
        from_uri := some (cs "sip:alice@example.com") }).1 = 1 ∧
    match_hash_table sampleDeps sampleTagAvp
      (hash_table_insert sampleDeps shm.ok emptyTable (cs "10.0.0.5") (cs "any")
        (some (cs "^sip:alice@")) none).2
      { src_ip := cs "10.0.0.5", proto := PROTO_UDP,
        from_uri := some (cs "sip:bob@example.com") } = (-1, []) :=
  ⟨by decide, rfl, rfl, by decide, by decide, by decide, by decide,
    (((pattern_gate sampleDeps (cs "10.0.0.5") PROTO_UDP (cs "sip:alice@example.com") [] []
      aliceEntry (cs "^sip:alice@") (cs "^sip:alice@") (by simp) (by simp) (by decide) rfl
      rfl).2.2.2 sampleTagAvp _
      { src_ip := cs "10.0.0.5", proto := PROTO_UDP,
        from_uri := some (cs "sip:alice@example.com") }
      (cs "sip:alice@example.com") rfl rfl rfl (by decide) (by decide) (by decide)).2.1
      (fun t ht _ => by simp [aliceEntry] at ht)).2 (by decide),
    ((pattern_gate sampleDeps (cs "10.0.0.5") PROTO_UDP (cs "sip:bob@example.com") [] []
      aliceEntry (cs "^sip:alice@") (cs "^sip:alice@") (by simp) (by simp) (by decide) rfl
      rfl).2.2.2 sampleTagAvp _
      { src_ip := cs "10.0.0.5", proto := PROTO_UDP,
        from_uri := some (cs "sip:bob@example.com") }
      (cs "sip:bob@example.com") rfl rfl rfl (by decide) (by decide) (by decide)).1.trans
      (by decide)⟩

theorem nulFree_of_token_proto (proto : List Nat) (c : Int) (h : token_proto proto = some c) :
    NulFree proto := by
  unfold token_proto at h
  split at h
  · subst proto; decide
  · split at h
    · subst proto; decide
    · split at h
      · subst proto; decide
      · split at h
        · subst proto; decide
        · split at h
          · subst proto; decide
          · cases h

/-- C2, as stated, fails: on the empty table of 128 buckets the row `10.0.0.5`, `udp`, no
pattern, no tag is inserted with success, and a UDP lookup from `10.0.0.5` whose URI has
1025 bytes, one more than the limit of 1024, returns -1. -/
theorem round_trip_fails_on_long_uri :
    (hash_table_insert sampleDeps shm.ok emptyTable (cs "10.0.0.5") (cs "udp") none none).1
      = 1 ∧
    (match_hash_table sampleDeps sampleTagAvp
      (hash_table_insert sampleDeps shm.ok emptyTable (cs "10.0.0.5") (cs "udp") none none).2
      { src_ip := cs "10.0.0.5", proto := PROTO_UDP,
        from_uri := some (List.replicate 1025 97) }).1 = -1 := by
  decide

/-- C2, amended: after a call of `hash_table_insert` that returns 1, with a token that names
a protocol or is `any`, no pattern and no tag, and an address that hashes to a bucket of
the table, every lookup from that address whose protocol is the entry's, or any protocol
when the token is `any`, and whose From URI has at most `MAX_URI_SIZE` bytes returns 1 and
forwards no tag. -/
theorem round_trip (D : Deps) (g : tag_avp_spec) (m : shm) (table : hash_table)
    (src_ip proto : List Nat) (c : Int) (msg : sip_msg) (uri : List Nat)
    (htok : token_proto proto = some c)
    (hhash : perm_hash D src_ip < table.length)
    (hok : (hash_table_insert D m table src_ip proto none none).1 = 1)
    (hsrc : msg.src_ip = src_ip) (hproto : c = PROTO_NONE ∨ c = msg.proto)
    (huri : msg.from_uri = some uri) (hlen : uri.length ≤ D.MAX_URI_SIZE) :
    match_hash_table D g (hash_table_insert D m table src_ip proto none none).2 msg =
      (1, []) := by
  have hnul := nulFree_of_token_proto proto c htok
  have heq : hash_table_insert D m table src_ip proto none none =
      (1, table.set (perm_hash D src_ip)
        ({ src_ip := src_ip, proto := c, pattern := none, tag := none } ::
          table.getD (perm_hash D src_ip) [])) := by
    rw [hash_table_insert_eq D m table src_ip proto none none hnul] at hok ⊢
    by_cases hnp : m.np = false
    · simp [hnp] at hok
    · simp only [hnp, if_false, htok] at hok ⊢
      rcases hash_table_insert_entry_cases D m table c src_ip none none with h0 | h0
      · rw [h0] at hok
        simp at hok
      · exact h0
  rw [heq, match_hash_table_eq D g _ msg uri huri hlen, hsrc]
  simp only []
  rw [getD_set_self _ _ _ hhash,
    match_scan_cons_of_matches D src_ip msg.proto (uri_string uri) _ _
      ⟨(candidate_same_address src_ip c msg.proto none none).2 hproto, trivial⟩]
  exact match_found_no_tag D g _ rfl

/-- C2 amended, at a concrete input: the scenario of the specification without the tag, a
`udp` row for `10.0.0.5` and a UDP lookup from it with the URI `sip:anyone@x.com`. -/
theorem round_trip_witness :
    token_proto (cs "udp") = some PROTO_UDP ∧
    perm_hash sampleDeps (cs "10.0.0.5") < emptyTable.length ∧
    (hash_table_insert sampleDeps shm.ok emptyTable (cs "10.0.0.5") (cs "udp") none none).1
      = 1 ∧
    (cs "sip:anyone@x.com").length ≤ sampleDeps.MAX_URI_SIZE ∧
    match_hash_table sampleDeps sampleTagAvp
        (hash_table_insert sampleDeps shm.ok emptyTable (cs "10.0.0.5") (cs "udp")
          none none).2
        { src_ip := cs "10.0.0.5", proto := PROTO_UDP,
          from_uri := some (cs "sip:anyone@x.com") } = (1, []) :=
  ⟨by decide, by decide, by decide, by decide,
    round_trip sampleDeps sampleTagAvp shm.ok emptyTable (cs "10.0.0.5") (cs "udp") PROTO_UDP
      { src_ip := cs "10.0.0.5", proto := PROTO_UDP,
        from_uri := some (cs "sip:anyone@x.com") }
      (cs "sip:anyone@x.com") (by decide) (by decide) (by decide) rfl (Or.inr rfl) rfl
      (by decide)⟩

/-! ## Emptying -/

theorem hash_table_ext (a b : hash_table) (hlen : a.length = b.length)
    (h : ∀ i : Nat, a.getD i [] = b.getD i []) : a = b := by
  apply List.ext_getElem hlen
  intro i h1 h2
  have := h i
  rwa [List.getD_eq_getElem _ _ h1, List.getD_eq_getElem _ _ h2] at this

theorem empty_hash_table_eq_replicate (D : Deps) (table : hash_table)
    (hlen : table.length = D.PERM_HASH_SIZE) :
    empty_hash_table D table = List.replicate D.PERM_HASH_SIZE [] := by
  apply hash_table_ext
  · rw [empty_hash_table_length, hlen, List.length_replicate]
  · intro i
    rw [empty_hash_table_getD, getD_replicate_nil]
    split
    · rfl
    · apply List.getD_eq_default
      omega

/-- C11: after `empty_hash_table` every bucket with an index below `PERM_HASH_SIZE` is
empty and the bucket count is as it was; emptying twice gives what emptying once gives;
and the emptied table of a table with `PERM_HASH_SIZE` buckets is the table that
`new_hash_table` creates, so that every insert and every lookup on it gives what it gives
on a new table. -/
theorem empty_hash_table_idempotent (D : Deps) (table : hash_table) :
    (∀ i : Nat, i < D.PERM_HASH_SIZE → (empty_hash_table D table).getD i [] = []) ∧
    (empty_hash_table D table).length = table.length ∧
    empty_hash_table D (empty_hash_table D table) = empty_hash_table D table ∧
    (table.length = D.PERM_HASH_SIZE →
      new_hash_table D true = some (empty_hash_table D table) ∧
      (∀ (m : shm) (src_ip proto : List Nat) (pattern tag : Option (List Nat)),
        hash_table_insert D m (empty_hash_table D table) src_ip proto pattern tag =
          hash_table_insert D m (List.replicate D.PERM_HASH_SIZE []) src_ip proto
            pattern tag) ∧
      (∀ (g : tag_avp_spec) (msg : sip_msg),
        match_hash_table D g (empty_hash_table D table) msg =
          match_hash_table D g (List.replicate D.PERM_HASH_SIZE []) msg)) := by
  refine ⟨?_, empty_hash_table_length D table, ?_, ?_⟩
  · intro i hi
    rw [empty_hash_table_getD, if_pos hi]
  · apply hash_table_ext
    · rw [empty_hash_table_length]
    · intro i
      rw [empty_hash_table_getD D (empty_hash_table D table) i, empty_hash_table_getD]
      split <;> rfl
  · intro hlen
    rw [empty_hash_table_eq_replicate D table hlen]
    exact ⟨rfl, fun _ _ _ _ _ => rfl, fun _ _ => rfl⟩

/-- C11, at a concrete input: the table of 128 buckets that holds the row `10.0.0.5`,
`udp`. -/
theorem empty_hash_table_idempotent_witness :
    (hash_table_insert sampleDeps shm.ok emptyTable (cs "10.0.0.5") (cs "udp") none
      none).2.length = sampleDeps.PERM_HASH_SIZE ∧
    new_hash_table sampleDeps true = some (empty_hash_table sampleDeps
      (hash_table_insert sampleDeps shm.ok emptyTable (cs "10.0.0.5") (cs "udp") none
        none).2) :=
  ⟨by decide,
    ((empty_hash_table_idempotent sampleDeps
      (hash_table_insert sampleDeps shm.ok emptyTable (cs "10.0.0.5") (cs "udp") none
        none).2).2.2.2 (by decide)).1⟩

/-! ## The result of a lookup -/

theorem match_found_result (D : Deps) (g : tag_avp_spec) (np : trusted_list) :
    ((match_found D g np).1 = 1 ∨ (match_found D g np).1 = -1) ∧
    ((match_found D g np).1 = -1 ↔
      ∃ t, np.tag = some t ∧ g.tag_avp ≠ 0 ∧
        D.add_avp (g.tag_avp_type ||| D.AVP_VAL_STR) g.tag_avp t ≠ 0) := by
  unfold match_found
  cases np.tag with
  | none => simp
  | some t =>
    by_cases hg : g.tag_avp = 0
    · simp [hg]
    · by_cases ha : D.add_avp (g.tag_avp_type ||| D.AVP_VAL_STR) g.tag_avp t = 0
      · simp [hg, ha]
      · simp [hg, ha]

/-- C12, as stated, fails: in the concrete environment a lookup that finds no entry, a
lookup that stops at a pattern that does not compile, a lookup with a URI of 1025 bytes,
and a lookup that stops at an entry whose tag the attribute store refuses all return the
same integer, -1. -/
theorem match_hash_table_errors_not_distinct :
    match_scan sampleDeps (cs "10.0.0.5") PROTO_UDP (cs "sip:anyone@x.com")
      (emptyTable.getD (perm_hash sampleDeps (cs "10.0.0.5")) []) = scan_result.not_found ∧
    (match_hash_table sampleDeps sampleTagAvp emptyTable anyoneMsg).1 = -1 ∧
    match_scan sampleDeps (cs "10.0.0.5") PROTO_UDP (cs "sip:anyone@x.com")
      ((hash_table_insert sampleDeps shm.ok emptyTable (cs "10.0.0.5") (cs "udp")
        (some [92]) none).2.getD (perm_hash sampleDeps (cs "10.0.0.5")) []) =
      scan_result.regex_error ∧
    (match_hash_table sampleDeps sampleTagAvp
      (hash_table_insert sampleDeps shm.ok emptyTable (cs "10.0.0.5") (cs "udp")
        (some [92]) none).2 anyoneMsg).1 = -1 ∧
    (match_hash_table sampleDeps sampleTagAvp
      (hash_table_insert sampleDeps shm.ok emptyTable (cs "10.0.0.5") (cs "udp")
        none none).2
      { src_ip := cs "10.0.0.5", proto := PROTO_UDP,
        from_uri := some (List.replicate 1025 97) }).1 = -1 ∧
    match_hash_table sampleDepsAvpFails sampleTagAvp
      (hash_table_insert sampleDepsAvpFails shm.ok emptyTable (cs "10.0.0.5") (cs "udp")
        none (some (cs "peerA"))).2 anyoneMsg =
      (-1, [{ flags := 2, name := 7, val := cs "peerA" }]) := by
  refine ⟨by decide, by decide, by decide, by decide, by decide, by decide⟩

/-- C12, amended: `match_hash_table` returns 1 or -1.  It returns -1, having called
`add_avp` no time, when the From header does not parse, when the URI is longer than
`MAX_URI_SIZE`, when the loop reaches the end of the chain, and when the loop stops at a
pattern that does not compile; when the loop stops at an entry it returns what the label
`found` returns, which is -1 exactly when the entry has a tag, a tag binding is set and
`add_avp` fails, and 1 otherwise.  So the returned integer separates a match from all the
rest, and does not separate the kinds of failure from one another or from no match. -/
theorem match_hash_table_result (D : Deps) (g : tag_avp_spec) (table : hash_table)
    (msg : sip_msg) :
    ((match_hash_table D g table msg).1 = 1 ∨ (match_hash_table D g table msg).1 = -1) ∧
    (msg.from_uri = none → match_hash_table D g table msg = (-1, [])) ∧
    (∀ uri, msg.from_uri = some uri → uri.length > D.MAX_URI_SIZE →
      match_hash_table D g table msg = (-1, [])) ∧
    (∀ uri, msg.from_uri = some uri → uri.length ≤ D.MAX_URI_SIZE →
      match_scan D msg.src_ip msg.proto (uri_string uri)
        (table.getD (perm_hash D msg.src_ip) []) = scan_result.not_found →
      match_hash_table D g table msg = (-1, [])) ∧
    (∀ uri, msg.from_uri = some uri → uri.length ≤ D.MAX_URI_SIZE →
      match_scan D msg.src_ip msg.proto (uri_string uri)
        (table.getD (perm_hash D msg.src_ip) []) = scan_result.regex_error →
      match_hash_table D g table msg = (-1, [])) ∧
    (∀ uri np, msg.from_uri = some uri → uri.length ≤ D.MAX_URI_SIZE →
      match_scan D msg.src_ip msg.proto (uri_string uri)
        (table.getD (perm_hash D msg.src_ip) []) = scan_result.found np →
      match_hash_table D g table msg = match_found D g np ∧
      ((match_found D g np).1 = -1 ↔
        ∃ t, np.tag = some t ∧ g.tag_avp ≠ 0 ∧
          D.add_avp (g.tag_avp_type ||| D.AVP_VAL_STR) g.tag_avp t ≠ 0)) := by
  refine ⟨?_, ?_, ?_, ?_, ?_, ?_⟩
  · unfold match_hash_table
    cases msg.from_uri with
    | none => exact Or.inr rfl
    | some uri =>
      simp only []
      split
      · exact Or.inr rfl
      · cases match_scan D msg.src_ip msg.proto (uri_string uri)
            (table.getD (perm_hash D msg.src_ip) []) with
        | found np => exact (match_found_result D g np).1
        | regex_error => exact Or.inr rfl
        | not_found => exact Or.inr rfl
  · intro h
    unfold match_hash_table
    rw [h]
  · intro uri h hlen
    unfold match_hash_table
    rw [h]
    simp only []
    rw [if_pos hlen]
  · intro uri h hlen hscan
    rw [match_hash_table_eq D g table msg uri h hlen, hscan]
  · intro uri h hlen hscan
    rw [match_hash_table_eq D g table msg uri h hlen, hscan]
  · intro uri np h hlen hscan
    rw [match_hash_table_eq D g table msg uri h hlen, hscan]
    exact ⟨rfl, (match_found_result D g np).2⟩

/-- C12 amended, at a concrete input: the lookup on the empty table of 128 buckets. -/
theorem match_hash_table_result_witness :
    anyoneMsg.from_uri = some (cs "sip:anyone@x.com") ∧
    (cs "sip:anyone@x.com").length ≤ sampleDeps.MAX_URI_SIZE ∧
    match_scan sampleDeps anyoneMsg.src_ip anyoneMsg.proto
      (uri_string (cs "sip:anyone@x.com"))
      (emptyTable.getD (perm_hash sampleDeps anyoneMsg.src_ip) []) = scan_result.not_found ∧
    match_hash_table sampleDeps sampleTagAvp emptyTable anyoneMsg = (-1, []) :=
  ⟨rfl, by decide, by decide,
    (match_hash_table_result sampleDeps sampleTagAvp emptyTable anyoneMsg).2.2.2.1
      (cs "sip:anyone@x.com") rfl (by decide) (by decide)⟩

/-! ## Letter case of the address -/

theorem candidate_congr_case (np : trusted_list) (a b : List Nat) (q : Int)
    (hlen : a.length = b.length) (hcase : a.map tolower = b.map tolower)
    (ha : NulFree a) (hb : NulFree b) :
    candidate np a q = candidate np b q := by
  have h : candidate np a q = true ↔ candidate np b q = true := by
    rw [candidate_iff np a q ha, candidate_iff np b q hb]
    unfold address_protocol_candidate
    rw [hlen, hcase]
  cases h1 : candidate np a q <;> cases h2 : candidate np b q <;> simp_all

theorem match_scan_congr (D : Deps) (a b : List Nat) (q : Int) (s : List Nat)
    (bucket : List trusted_list) (h : ∀ np ∈ bucket, candidate np a q = candidate np b q) :
    match_scan D a q s bucket = match_scan D b q s bucket := by
  induction bucket with
  | nil => rfl
  | cons x next ih =>
    have hx := h x (by simp)
    have hnext := ih (fun np hnp => h np (by simp [hnp]))
    rw [match_scan, match_scan, hx, hnext]

/-- An insert changes no bucket but the one of its address. -/
theorem hash_table_insert_other_bucket (D : Deps) (m : shm) (table : hash_table)
    (src_ip proto : List Nat) (pattern tag : Option (List Nat)) (i : Nat)
    (h : i ≠ perm_hash D src_ip) :
    (hash_table_insert D m table src_ip proto pattern tag).2.getD i [] = table.getD i [] := by
  rcases hash_table_insert_cases D m table src_ip proto pattern tag with h0 | ⟨h0, _⟩ | ⟨c, h0⟩
  · rw [h0]
  · rw [h0]
  · rw [h0]
    exact getD_set_ne table _ i _ (Ne.symm h)

/-- A lookup reads the table only in the bucket of the query address. -/
theorem match_hash_table_congr_bucket (D : Deps) (g : tag_avp_spec) (t1 t2 : hash_table)
    (msg : sip_msg)
    (h : t1.getD (perm_hash D msg.src_ip) [] = t2.getD (perm_hash D msg.src_ip) []) :
    match_hash_table D g t1 msg = match_hash_table D g t2 msg := by
  unfold match_hash_table
  rw [h]

/-- C13: what a lookup does for a query address `b` that differs only in letter case from
the address `a` of an inserted entry, both NUL-free and of one length.  The test of lines
215 to 217 treats `b` as it treats `a`, so where `perm_hash` sends the two addresses to one
bucket every lookup gives for `b` what it gives for `a`.  Where `perm_hash`, which hashes
the bytes as they are, sends them to different buckets, an insert with the address `a`
changes no lookup from `b`, since the loop never reaches the entry; and after such an
insert on a new table every lookup from `b` returns -1 and forwards nothing. -/
theorem case_variant_lookup (D : Deps) (g : tag_avp_spec) (table : hash_table)
    (a b : List Nat) (hlen : a.length = b.length) (hcase : a.map tolower = b.map tolower)
    (ha : NulFree a) (hb : NulFree b) :
    (∀ (np : trusted_list) (q : Int), candidate np b q = candidate np a q) ∧
    (perm_hash D b = perm_hash D a →
      ∀ (q : Int) (uri : Option (List Nat)),
        match_hash_table D g table { src_ip := b, proto := q, from_uri := uri } =
          match_hash_table D g table { src_ip := a, proto := q, from_uri := uri }) ∧
    (perm_hash D b ≠ perm_hash D a →
      ∀ (m : shm) (proto : List Nat) (pattern tag : Option (List Nat)) (q : Int)
        (uri : Option (List Nat)),
        match_hash_table D g (hash_table_insert D m table a proto pattern tag).2
            { src_ip := b, proto := q, from_uri := uri } =
          match_hash_table D g table { src_ip := b, proto := q, from_uri := uri }) ∧
    (perm_hash D b ≠ perm_hash D a →
      ∀ (m : shm) (proto : List Nat) (pattern tag : Option (List Nat)) (q : Int)
        (uri : Option (List Nat)),
        match_hash_table D g
            (hash_table_insert D m (List.replicate D.PERM_HASH_SIZE []) a proto pattern tag).2
            { src_ip := b, proto := q, from_uri := uri } = (-1, [])) := by
  have hcand : ∀ (np : trusted_list) (q : Int), candidate np b q = candidate np a q :=
    fun np q => candidate_congr_case np b a q hlen.symm hcase.symm hb ha
  refine ⟨hcand, ?_, ?_, ?_⟩
  · intro hbucket q uri
    unfold match_hash_table
    simp only [hbucket]
    cases uri with
    | none => rfl
    | some u =>
      simp only []
      rw [match_scan_congr D b a q (uri_string u) _ (fun np _ => hcand np q)]
  · intro hne m proto pattern tag q uri
    exact match_hash_table_congr_bucket D g _ _ _
      (hash_table_insert_other_bucket D m table a proto pattern tag _ hne)
  · intro hne m proto pattern tag q uri
    apply match_hash_table_empty_bucket
    rw [hash_table_insert_other_bucket D m _ a proto pattern tag _ hne]
    exact getD_replicate_nil _ _

/-- C13, at a concrete input: the addresses `fe80::1` and `FE80::1` in the concrete
environment, whose hash, the sum of the bytes, sends them to different buckets.  The row
`fe80::1`, `any`, no pattern is inserted with success on the new table, a UDP lookup from
`fe80::1` returns 1, and the same lookup from `FE80::1` returns -1. -/
theorem case_variant_lookup_witness :
    (cs "fe80::1").length = (cs "FE80::1").length ∧
    (cs "fe80::1").map tolower = (cs "FE80::1").map tolower ∧
    NulFree (cs "fe80::1") ∧ NulFree (cs "FE80::1") ∧
    perm_hash sampleDeps (cs "FE80::1") ≠ perm_hash sampleDeps (cs "fe80::1") ∧
    (hash_table_insert sampleDeps shm.ok (List.replicate sampleDeps.PERM_HASH_SIZE [])
      (cs "fe80::1") (cs "any") none none).1 = 1 ∧
    match_hash_table sampleDeps sampleTagAvp
      (hash_table_insert sampleDeps shm.ok (List.replicate sampleDeps.PERM_HASH_SIZE [])
        (cs "fe80::1") (cs "any") none none).2
      { src_ip := cs "fe80::1", proto := PROTO_UDP, from_uri := some (cs "sip:a@x.com") } =
        (1, []) ∧
    match_hash_table sampleDeps sampleTagAvp
      (hash_table_insert sampleDeps shm.ok (List.replicate sampleDeps.PERM_HASH_SIZE [])
        (cs "fe80::1") (cs "any") none none).2
      { src_ip := cs "FE80::1", proto := PROTO_UDP, from_uri := some (cs "sip:a@x.com") } =
        (-1, []) :=
  ⟨by decide, by decide, by decide, by decide, by decide, by decide, by decide,
    (case_variant_lookup sampleDeps sampleTagAvp emptyTable (cs "fe80::1") (cs "FE80::1")
      (by decide) (by decide) (by decide) (by decide)).2.2.2 (by decide) shm.ok (cs "any")
      none none PROTO_UDP (some (cs "sip:a@x.com"))⟩

/-! ## The length of the URI -/

theorem uri_string_eq_buffer (uri : List Nat) :
    uri_string uri = (uri_buffer uri).takeWhile (fun c => c ≠ 0) := by
  unfold uri_string uri_buffer
  induction uri with
  | nil => simp
  | cons c u ih =>
    by_cases hc : c = 0
    · simp [hc]
    · simp only [List.cons_append, List.takeWhile_cons, ne_eq, hc, not_false_eq_true,
        decide_True, if_true]
      rw [ih]

/-- C14: a lookup whose From URI is longer than `MAX_URI_SIZE` returns -1 and calls `add_avp`
no time, whatever the table holds, and so without a look at any entry; a URI of at most
`MAX_URI_SIZE` bytes, one of exactly `MAX_URI_SIZE` bytes among them, passes the guard, the
lookup then being decided by the loop over the bucket, and the bytes written to the array
`uri_string`, the URI and its terminator, are at most `MAX_URI_SIZE + 1`, the size of the
array, the C string in the array being the one the patterns are tested on. -/
theorem uri_length_guard (D : Deps) (g : tag_avp_spec) (msg : sip_msg) (uri : List Nat)
    (huri : msg.from_uri = some uri) :
    (uri.length > D.MAX_URI_SIZE →
      ∀ table : hash_table, match_hash_table D g table msg = (-1, [])) ∧
    (uri.length ≤ D.MAX_URI_SIZE →
      (∀ table : hash_table, match_hash_table D g table msg =
        match match_scan D msg.src_ip msg.proto (uri_string uri)
            (table.getD (perm_hash D msg.src_ip) []) with
        | scan_result.found np => match_found D g np
        | scan_result.regex_error => (-1, [])
        | scan_result.not_found => (-1, [])) ∧
      (uri_buffer uri).length ≤ D.MAX_URI_SIZE + 1 ∧
      uri_string uri = (uri_buffer uri).takeWhile (fun c => c ≠ 0)) ∧
    (uri.length = D.MAX_URI_SIZE → (uri_buffer uri).length = D.MAX_URI_SIZE + 1) := by
  refine ⟨?_, ?_, ?_⟩
  · intro hlen table
    unfold match_hash_table
    rw [huri]
    simp only []
    rw [if_pos hlen]
  · intro hlen
    refine ⟨fun table => match_hash_table_eq D g table msg uri huri hlen, ?_,
      uri_string_eq_buffer uri⟩
    simp only [uri_buffer, List.length_append, List.length_singleton]
    omega
  · intro hlen
    simp only [uri_buffer, List.length_append, List.length_singleton]
    omega

/-- C14, at a concrete input: a table with a `udp` row for `10.0.0.5` without a pattern, and
UDP lookups from `10.0.0.5` with a URI of 1025 bytes, which is rejected, and of 1024
bytes, which is accepted and matched. -/
theorem uri_length_guard_witness :
    (List.replicate 1025 97).length > sampleDeps.MAX_URI_SIZE ∧
    match_hash_table sampleDeps sampleTagAvp
        (hash_table_insert sampleDeps shm.ok emptyTable (cs "10.0.0.5") (cs "udp") none
          (some (cs "peerA"))).2
        { src_ip := cs "10.0.0.5", proto := PROTO_UDP,
          from_uri := some (List.replicate 1025 97) } = (-1, []) ∧
    match_hash_table sampleDeps sampleTagAvp
        (hash_table_insert sampleDeps shm.ok emptyTable (cs "10.0.0.5") (cs "udp") none
          (some (cs "peerA"))).2
        { src_ip := cs "10.0.0.5", proto := PROTO_UDP,
          from_uri := some (List.replicate 1024 97) } =
      (1, [{ flags := 2, name := 7, val := cs "peerA" }]) :=
  ⟨by decide,
    (uri_length_guard sampleDeps sampleTagAvp
      { src_ip := cs "10.0.0.5", proto := PROTO_UDP,
        from_uri := some (List.replicate 1025 97) }
      (List.replicate 1025 97) rfl).1 (by decide) _,
    by decide⟩

/-! ## Patterns that do not compile -/

theorem match_scan_cons_of_aborts (D : Deps) (src_ip : List Nat) (proto : Int)
    (s : List Nat) (np : trusted_list) (next : List trusted_list)
    (h : entry_aborts D np src_ip proto) :
    match_scan D src_ip proto s (np :: next) = scan_result.regex_error := by
  obtain ⟨hc, p, hp, hre⟩ := h
  rw [match_scan, if_pos hc]
  simp [hp, hre]

/-- C15: when the loop of a lookup passes over the entries `pre` and then reaches the entry
`bad`, which passes the address/protocol test and whose pattern does not compile, the loop
ends with an error whatever entries follow, matching ones among them, and the lookup
returns -1 and calls `add_avp` no time; and when the loop passes over `pre` and then
reaches a matching entry `e`, it stops at `e` whatever follows, an entry with a pattern
that does not compile among them. -/
theorem invalid_pattern_aborts (D : Deps) (g : tag_avp_spec) (src_ip : List Nat)
    (proto : Int) (s : List Nat) (pre post : List trusted_list) (bad : trusted_list)
    (hpre : ∀ x ∈ pre, entry_skipped D x src_ip proto s)
    (hbad : entry_aborts D bad src_ip proto) :
    match_scan D src_ip proto s (pre ++ bad :: post) = scan_result.regex_error ∧
    (∀ (table : hash_table) (msg : sip_msg) (uri : List Nat),
      msg.src_ip = src_ip → msg.proto = proto → msg.from_uri = some uri →
      uri_string uri = s → table.getD (perm_hash D src_ip) [] = pre ++ bad :: post →
      match_hash_table D g table msg = (-1, [])) ∧
    (∀ e : trusted_list, entry_matches D e src_ip proto s →
      match_scan D src_ip proto s (pre ++ e :: bad :: post) = scan_result.found e) := by
  have hscan : match_scan D src_ip proto s (pre ++ bad :: post) =
      scan_result.regex_error := by
    rw [match_scan_append_of_skipped D src_ip proto s pre _ hpre]
    exact match_scan_cons_of_aborts D src_ip proto s bad post hbad
  refine ⟨hscan, ?_, ?_⟩
  · intro table msg uri hsrc hproto huri hs hbucket
    unfold match_hash_table
    rw [huri]
    simp only []
    split
    · rfl
    · rw [hsrc, hproto, hs, hbucket, hscan]
  · intro e he
    rw [match_scan_append_of_skipped D src_ip proto s pre _ hpre]
    exact match_scan_cons_of_matches D src_ip proto s e _ he

/-- C15, at a concrete input: a chain with the entry whose pattern is a lone backslash in
front of an entry without a pattern, both for `10.0.0.5`, and a UDP lookup from
`10.0.0.5`. -/
theorem invalid_pattern_aborts_witness :
    entry_aborts sampleDeps badPatternEntry (cs "10.0.0.5") PROTO_UDP ∧
    entry_matches sampleDeps plainEntry (cs "10.0.0.5") PROTO_UDP (cs "sip:a@x.com") ∧
    match_scan sampleDeps (cs "10.0.0.5") PROTO_UDP (cs "sip:a@x.com")
      ([] ++ badPatternEntry :: [plainEntry]) = scan_result.regex_error ∧
    match_scan sampleDeps (cs "10.0.0.5") PROTO_UDP (cs "sip:a@x.com")
      [plainEntry, badPatternEntry] = scan_result.found plainEntry :=
  ⟨⟨by decide, [92], rfl, rfl⟩, ⟨by decide, trivial⟩,
    (invalid_pattern_aborts sampleDeps sampleTagAvp (cs "10.0.0.5") PROTO_UDP
      (cs "sip:a@x.com") [] [plainEntry] badPatternEntry (by simp)
      ⟨by decide, [92], rfl, rfl⟩).1,
    by decide⟩

/-! ## Forwarding of the tag -/

/-- C16, as stated, fails: the row `10.0.0.5`, `udp`, no pattern, with a tag that is present
and of length zero is inserted with success, and a lookup that matches it with a tag
binding set calls `add_avp` once, with the empty string. -/
theorem empty_tag_is_forwarded :
    (hash_table_insert sampleDeps shm.ok emptyTable (cs "10.0.0.5") (cs "udp") none
      (some [])).1 = 1 ∧
    match_hash_table sampleDeps sampleTagAvp
        (hash_table_insert sampleDeps shm.ok emptyTable (cs "10.0.0.5") (cs "udp") none
          (some [])).2 anyoneMsg =
      (1, [{ flags := 2, name := 7, val := [] }]) := by
  refine ⟨by decide, by decide⟩

/-- C16, amended: at the label `found` with the entry `np`, `add_avp` is called exactly when
`tag_avp.n` is not zero and the tag of `np` is present, be it of length zero; it is then
called once, with the flags `tag_avp_type | AVP_VAL_STR`, the name `tag_avp` and the tag
of `np`; an entry without a tag, and any entry when no tag binding is set, gives the
result 1 without a call.  A lookup that stops at the entry which an insert with the tag
`tag` has just linked forwards that `tag` in this way. -/
theorem tag_forwarding (D : Deps) (g : tag_avp_spec) (np : trusted_list) :
    ((match_found D g np).2 ≠ [] ↔ (g.tag_avp ≠ 0 ∧ np.tag.isSome = true)) ∧
    (∀ t : List Nat, np.tag = some t → g.tag_avp ≠ 0 →
      (match_found D g np).2 =
        [{ flags := g.tag_avp_type ||| D.AVP_VAL_STR, name := g.tag_avp, val := t }]) ∧
    (np.tag = none → match_found D g np = (1, [])) ∧
    (g.tag_avp = 0 → match_found D g np = (1, [])) ∧
    (∀ (table : hash_table) (src_ip : List Nat) (tag : Option (List Nat)) (q : Int)
        (uri : List Nat),
      perm_hash D src_ip < table.length → uri.length ≤ D.MAX_URI_SIZE →
      match_hash_table D g
          (hash_table_insert D shm.ok table src_ip (cs "any") none tag).2
          { src_ip := src_ip, proto := q, from_uri := some uri } =
        match_found D g { src_ip := src_ip, proto := PROTO_NONE, pattern := none,
                          tag := tag }) := by
  refine ⟨?_, ?_, ?_, ?_, ?_⟩
  · unfold match_found
    cases np.tag with
    | none => simp
    | some t =>
      by_cases hg : g.tag_avp = 0
      · simp [hg]
      · simp only [ne_eq, hg, not_false_eq_true, if_true, Option.isSome_some, and_self,
          iff_true]
        split <;> simp
  · intro t ht hg
    unfold match_found
    rw [ht]
    simp only [ne_eq, hg, not_false_eq_true, if_true]
    split <;> rfl
  · intro ht
    exact match_found_no_tag D g np ht
  · intro hg
    unfold match_found
    cases np.tag with
    | none => rfl
    | some t => simp [hg]
  · intro table src_ip tag q uri hhash hlen
    have hins : hash_table_insert D shm.ok table src_ip (cs "any") none tag =
        (1, table.set (perm_hash D src_ip)
          ({ src_ip := src_ip, proto := PROTO_NONE, pattern := none, tag := tag } ::
            table.getD (perm_hash D src_ip) [])) := by
      rw [hash_table_insert_eq D shm.ok table src_ip (cs "any") none tag (by decide)]
      have htok : token_proto (cs "any") = some PROTO_NONE := by decide
      have hnp : (shm.ok.np = false) = False := by simp [shm.ok]
      simp only [hnp, if_false, htok]
      exact hash_table_insert_entry_ok D table PROTO_NONE src_ip none tag
    rw [hins, match_hash_table_eq D g _ _ uri rfl hlen]
    simp only []
    rw [getD_set_self _ _ _ hhash,
      match_scan_cons_of_matches D src_ip q (uri_string uri) _ _
        ⟨(candidate_same_address src_ip PROTO_NONE q none tag).2 (Or.inl rfl), trivial⟩]

/-- C16 amended, at a concrete input: the entry `10.0.0.5`, `any`, tag `peerA` and the tag
binding with type 0 and name 7. -/
theorem tag_forwarding_witness :
    plainEntry.tag = some (cs "peerA") ∧ sampleTagAvp.tag_avp ≠ 0 ∧
    (match_found sampleDeps sampleTagAvp plainEntry).2 =
      [{ flags := sampleTagAvp.tag_avp_type ||| sampleDeps.AVP_VAL_STR,
         name := sampleTagAvp.tag_avp, val := cs "peerA" }] :=
  ⟨rfl, by decide,
    (tag_forwarding sampleDeps sampleTagAvp plainEntry).2.1 (cs "peerA") rfl (by decide)⟩

/-! ## The flags of `regcomp` -/

theorem match_scan_with_regcomp (D : Deps) (rc : List Nat → Nat → Option D.regex_t)
    (h : ∀ p : List Nat, rc p D.REG_NOSUB = D.regcomp p D.REG_NOSUB)
    (src_ip : List Nat) (proto : Int) (s : List Nat) (bucket : List trusted_list) :
    match_scan (D.with_regcomp rc) src_ip proto s bucket =
      match_scan D src_ip proto s bucket := by
  induction bucket with
  | nil => rfl
  | cons x next ih =>
    rw [match_scan, match_scan, ih]
    have hrc : ∀ p : List Nat,
        (D.with_regcomp rc).regcomp p (D.with_regcomp rc).REG_NOSUB =
          D.regcomp p D.REG_NOSUB := h
    split
    · cases x.pattern with
      | none => rfl
      | some p =>
        simp only []
        rw [hrc p]
        cases D.regcomp p D.REG_NOSUB with
        | none => rfl
        | some preg => rfl
    · rfl

/-- C17, as stated, fails: with the regex engine that heeds the syntax flag, the pattern
`alice|bob` compiled with `REG_EXTENDED | REG_NOSUB`, that is 9, matches the URI
`sip:bob@example.com`, and a lookup on a table whose one entry has this pattern does not
match this URI and returns -1, while it matches a URI that contains the bytes
`alice|bob`: the bar is not read as an alternation. -/
theorem pattern_not_compiled_as_extended :
    (sampleDepsFlags.regcomp (cs "alice|bob") 9).map
      (fun preg => sampleDepsFlags.regexec preg (cs "sip:bob@example.com")) = some 0 ∧
    match_hash_table sampleDepsFlags sampleTagAvp
      (hash_table_insert sampleDepsFlags shm.ok emptyTable (cs "10.0.0.5") (cs "any")
        (some (cs "alice|bob")) none).2
      { src_ip := cs "10.0.0.5", proto := PROTO_UDP,
        from_uri := some (cs "sip:bob@example.com") } = (-1, []) ∧
    match_hash_table sampleDepsFlags sampleTagAvp
      (hash_table_insert sampleDepsFlags shm.ok emptyTable (cs "10.0.0.5") (cs "any")
        (some (cs "alice|bob")) none).2
      { src_ip := cs "10.0.0.5", proto := PROTO_UDP,
        from_uri := some (cs "sip:alice|bob@example.com") } = (1, []) := by
  refine ⟨by decide, by decide, by decide⟩

/-- C17, amended: `match_hash_table` compiles the pattern of a candidate entry with the flags
`REG_NOSUB` and no other flag, so without sub-match capture and in the syntax `regcomp`
uses when `REG_EXTENDED` is not given: a lookup is the same for every `regcomp` that does
with the flags `REG_NOSUB` what the given one does, whatever it does with other flags. -/
theorem pattern_compiled_with_nosub_only (D : Deps) (g : tag_avp_spec) (table : hash_table)
    (msg : sip_msg) (rc : List Nat → Nat → Option D.regex_t)
    (h : ∀ p : List Nat, rc p D.REG_NOSUB = D.regcomp p D.REG_NOSUB) :
    match_hash_table (D.with_regcomp rc) g table msg = match_hash_table D g table msg := by
  unfold match_hash_table
  cases msg.from_uri with
  | none => rfl
  | some uri =>
    simp only []
    have h1 : (D.with_regcomp rc).MAX_URI_SIZE = D.MAX_URI_SIZE := rfl
    have h2 : perm_hash (D.with_regcomp rc) msg.src_ip = perm_hash D msg.src_ip := rfl
    rw [h1, h2, match_scan_with_regcomp D rc h]
    split
    · rfl
    · cases match_scan D msg.src_ip msg.proto (uri_string uri)
          (table.getD (perm_hash D msg.src_ip) []) with
      | found np => rfl
      | regex_error => rfl
      | not_found => rfl

/-- C17 amended, at a concrete input: the engine that heeds the syntax flag, changed to
reject every pattern when the flags are not 8. -/
theorem pattern_compiled_with_nosub_only_witness :
    (∀ p : List Nat,
      (fun q c => if c = 8 then flag_regcomp q c else none) p sampleDepsFlags.REG_NOSUB =
        sampleDepsFlags.regcomp p sampleDepsFlags.REG_NOSUB) ∧
    match_hash_table
        (sampleDepsFlags.with_regcomp (fun q c => if c = 8 then flag_regcomp q c else none))
        sampleTagAvp
        (hash_table_insert sampleDepsFlags shm.ok emptyTable (cs "10.0.0.5") (cs "any")
          (some (cs "alice|bob")) none).2
        { src_ip := cs "10.0.0.5", proto := PROTO_UDP,
          from_uri := some (cs "sip:bob@example.com") } =
      match_hash_table sampleDepsFlags sampleTagAvp
        (hash_table_insert sampleDepsFlags shm.ok emptyTable (cs "10.0.0.5") (cs "any")
          (some (cs "alice|bob")) none).2
        { src_ip := cs "10.0.0.5", proto := PROTO_UDP,
          from_uri := some (cs "sip:bob@example.com") } :=
  ⟨fun _ => rfl,
    pattern_compiled_with_nosub_only sampleDepsFlags sampleTagAvp _ _
      (fun q c => if c = 8 then flag_regcomp q c else none) (fun _ => rfl)⟩

/-! ## Tables reached by sequences of calls -/

/-- A property of the entries and their bucket indices that holds of each entry an insert
of the sequence can link holds of every entry of the table reached, which has
`PERM_HASH_SIZE` buckets. -/
theorem run_ops_invariant (D : Deps) (P : Nat → trusted_list → Prop) (ops : List table_op)
    (hins : ∀ (m : shm) (src_ip proto : List Nat) (pattern tag : Option (List Nat)) (c : Int),
      table_op.insert m src_ip proto pattern tag ∈ ops →
      perm_hash D src_ip < D.PERM_HASH_SIZE →
      P (perm_hash D src_ip)
        { src_ip := src_ip, proto := c, pattern := pattern, tag := tag }) :
    (run_ops D ops).length = D.PERM_HASH_SIZE ∧
    ∀ (i : Nat) (np : trusted_list), np ∈ (run_ops D ops).getD i [] → P i np := by
  have step : ∀ (l : List table_op) (t : hash_table),
      (∀ op ∈ l, op ∈ ops) →
      (t.length = D.PERM_HASH_SIZE ∧
        ∀ (i : Nat) (np : trusted_list), np ∈ t.getD i [] → P i np) →
      (l.foldl (apply_op D) t).length = D.PERM_HASH_SIZE ∧
        ∀ (i : Nat) (np : trusted_list),
          np ∈ (l.foldl (apply_op D) t).getD i [] → P i np := by
    intro l
    induction l with
    | nil => intro t _ h; exact h
    | cons op l ih =>
      intro t hmem ht
      rw [List.foldl_cons]
      apply ih _ (fun o ho => hmem o (by simp [ho]))
      obtain ⟨hlen, hinv⟩ := ht
      cases op with
      | empty =>
        refine ⟨by rw [apply_op, empty_hash_table_length, hlen], ?_⟩
        intro i np hnp
        rw [apply_op, empty_hash_table_getD] at hnp
        split at hnp
        · simp at hnp
        · exact hinv i np hnp
      | insert m src_ip proto pattern tag =>
        have hop := hmem (table_op.insert m src_ip proto pattern tag) (by simp)
        rcases hash_table_insert_cases D m t src_ip proto pattern tag with
          h0 | h0 | ⟨c, h0⟩
        · simp only [apply_op, h0]
          exact ⟨hlen, hinv⟩
        · simp only [apply_op, h0.1]
          exact ⟨hlen, hinv⟩
        · simp only [apply_op, h0]
          refine ⟨by rw [List.length_set, hlen], ?_⟩
          intro i np hnp
          by_cases hi : i = perm_hash D src_ip
          · subst hi
            by_cases hh : perm_hash D src_ip < t.length
            · rw [getD_set_self _ _ _ hh] at hnp
              rcases List.mem_cons.1 hnp with rfl | hold
              · exact hins m src_ip proto pattern tag c hop (by omega)
              · exact hinv _ np hold
            · rw [List.set_eq_of_length_le (by omega)] at hnp
              exact hinv _ np hnp
          · rw [getD_set_ne _ _ _ _ (Ne.symm hi)] at hnp
            exact hinv i np hnp
  unfold run_ops
  apply step ops _ (fun _ h => h)
  refine ⟨List.length_replicate _ _, ?_⟩
  intro i np hnp
  rw [getD_replicate_nil] at hnp
  simp at hnp

/-- C18, as stated, fails: the call of `hash_table_insert` with the empty string as address,
the token `any` and every allocation succeeding, on the new table of 128 buckets, returns
1 and links an entry whose address has length zero. -/
theorem empty_address_is_inserted :
    (hash_table_insert sampleDeps shm.ok emptyTable [] (cs "any") none none).1 = 1 ∧
    run_ops sampleDeps [table_op.insert shm.ok [] (cs "any") none none] =
      (hash_table_insert sampleDeps shm.ok emptyTable [] (cs "any") none none).2 ∧
    (run_ops sampleDeps [table_op.insert shm.ok [] (cs "any") none none]).getD
        (perm_hash sampleDeps []) [] =
      [{ src_ip := [], proto := PROTO_NONE, pattern := none, tag := none }] := by
  refine ⟨by decide, by decide, by decide⟩

/-- C18, amended: in every table reached from the new table by calls of `hash_table_insert`
and `empty_hash_table`, every entry has the address that one of the inserts was given; so
every entry has an address of length at least 1 when every insert was given such an
address.  The insert itself does not look at the length of the address: with every
allocation succeeding, the empty string is linked as the address of a new entry. -/
theorem entry_addresses_are_inserted (D : Deps) (ops : List table_op) :
    (∀ (i : Nat) (np : trusted_list), np ∈ (run_ops D ops).getD i [] →
      ∃ m proto pattern tag, table_op.insert m np.src_ip proto pattern tag ∈ ops) ∧
    ((∀ (m : shm) (src_ip proto : List Nat) (pattern tag : Option (List Nat)),
        table_op.insert m src_ip proto pattern tag ∈ ops → 1 ≤ src_ip.length) →
      ∀ (i : Nat) (np : trusted_list), np ∈ (run_ops D ops).getD i [] →
        1 ≤ np.src_ip.length) ∧
    (∀ (table : hash_table) (pattern tag : Option (List Nat)),
      hash_table_insert D shm.ok table [] (cs "any") pattern tag =
        (1, table.set (perm_hash D [])
          ({ src_ip := [], proto := PROTO_NONE, pattern := pattern, tag := tag } ::
            table.getD (perm_hash D []) []))) := by
  have h1 : ∀ (i : Nat) (np : trusted_list), np ∈ (run_ops D ops).getD i [] →
      ∃ m proto pattern tag, table_op.insert m np.src_ip proto pattern tag ∈ ops :=
    (run_ops_invariant D
      (fun _ np => ∃ m proto pattern tag, table_op.insert m np.src_ip proto pattern tag ∈ ops)
      ops (fun m src_ip proto pattern tag _ hop _ => ⟨m, proto, pattern, tag, hop⟩)).2
  refine ⟨h1, ?_, ?_⟩
  · intro hall i np hnp
    obtain ⟨m, proto, pattern, tag, hop⟩ := h1 i np hnp
    exact hall m np.src_ip proto pattern tag hop
  · intro table pattern tag
    rw [hash_table_insert_eq D shm.ok table [] (cs "any") pattern tag (by decide)]
    have htok : token_proto (cs "any") = some PROTO_NONE := by decide
    have hnp : (shm.ok.np = false) = False := by simp [shm.ok]
    simp only [hnp, if_false, htok]
    exact hash_table_insert_entry_ok D table PROTO_NONE [] pattern tag

/-- C18 amended, at a concrete input: the sequence of an insert of `10.0.0.5`, an empty and
an insert of `10.0.0.6`. -/
theorem entry_addresses_are_inserted_witness :
    (∀ (m : shm) (src_ip proto : List Nat) (pattern tag : Option (List Nat)),
      table_op.insert m src_ip proto pattern tag ∈
        [table_op.insert shm.ok (cs "10.0.0.5") (cs "udp") none none, table_op.empty,
          table_op.insert shm.ok (cs "10.0.0.6") (cs "any") none none] →
      1 ≤ src_ip.length) ∧
    ∀ (i : Nat) (np : trusted_list),
      np ∈ (run_ops sampleDeps
        [table_op.insert shm.ok (cs "10.0.0.5") (cs "udp") none none, table_op.empty,
          table_op.insert shm.ok (cs "10.0.0.6") (cs "any") none none]).getD i [] →
      1 ≤ np.src_ip.length := by
  have hall : ∀ (m : shm) (src_ip proto : List Nat) (pattern tag : Option (List Nat)),
      table_op.insert m src_ip proto pattern tag ∈
        [table_op.insert shm.ok (cs "10.0.0.5") (cs "udp") none none, table_op.empty,
          table_op.insert shm.ok (cs "10.0.0.6") (cs "any") none none] →
      1 ≤ src_ip.length := by
    intro m src_ip proto pattern tag h
    simp only [List.mem_cons, table_op.insert.injEq, List.mem_singleton, List.not_mem_nil,
      or_false, false_or] at h
    rcases h with ⟨_, h, _⟩ | ⟨_, h, _⟩ | ⟨_, h, _⟩
    · rw [h]
      decide
    · rw [h]
      decide
  exact ⟨hall, (entry_addresses_are_inserted sampleDeps _).2.1 hall⟩

theorem print_lines_filter (table : hash_table) (n i : Nat) :
    ((List.range n).flatMap (fun j => (table.getD j []).map (print_entry j))).filter
        (fun l => decide (l.index = i)) =
      if i < n then (table.getD i []).map (print_entry i) else [] := by
  induction n with
  | zero => simp
  | succ n ih =>
    rw [List.range_succ, List.flatMap_append, List.filter_append, ih, List.flatMap_singleton]
    by_cases hin : i = n
    · subst hin
      have hall : ((table.getD i []).map (print_entry i)).filter
          (fun l => decide (l.index = i)) = (table.getD i []).map (print_entry i) := by
        rw [List.filter_eq_self]
        intro l hl
        obtain ⟨np, _, rfl⟩ := List.mem_map.1 hl
        simp [print_entry]
      rw [hall]
      simp
    · have hnone : ((table.getD n []).map (print_entry n)).filter
          (fun l => decide (l.index = i)) = [] := by
        rw [List.filter_eq_nil_iff]
        intro l hl
        obtain ⟨np, _, rfl⟩ := List.mem_map.1 hl
        simpa [print_entry] using Ne.symm hin
      rw [hnone, List.append_nil]
      by_cases h1 : i < n
      · simp [h1, Nat.lt_succ_of_lt h1]
      · have h2 : ¬ i < n + 1 := by omega
        simp [h1, h2]

theorem print_lines_sorted (table : hash_table) (n : Nat) :
    ((List.range n).flatMap (fun j => (table.getD j []).map (print_entry j))).Pairwise
        (fun l1 l2 => l1.index ≤ l2.index) ∧
    ∀ l ∈ (List.range n).flatMap (fun j => (table.getD j []).map (print_entry j)),
      l.index < n := by
  induction n with
  | zero => simp
  | succ n ih =>
    rw [List.range_succ, List.flatMap_append, List.flatMap_singleton]
    have hlast : ∀ l ∈ (table.getD n []).map (print_entry n), l.index = n := by
      intro l hl
      obtain ⟨np, _, rfl⟩ := List.mem_map.1 hl
      rfl
    constructor
    · rw [List.pairwise_append]
      refine ⟨ih.1, ?_, ?_⟩
      · rw [List.pairwise_map]
        exact List.Pairwise.imp (fun _ => Nat.le_refl _)
          (List.pairwise_of_forall (fun _ _ => trivial))
      · intro l1 h1 l2 h2
        rw [hlast l2 h2]
        exact Nat.le_of_lt (ih.2 l1 h1)
    · intro l hl
      rcases List.mem_append.1 hl with h | h
      · exact Nat.lt_succ_of_lt (ih.2 l h)
      · rw [hlast l h]
        exact Nat.lt_succ_self n

theorem print_lines_length (table : hash_table) (n : Nat) :
    ((List.range n).flatMap (fun j => (table.getD j []).map (print_entry j))).length =
      ((table.take n).map List.length).sum := by
  induction n with
  | zero => simp
  | succ n ih =>
    rw [List.range_succ, List.flatMap_append, List.flatMap_singleton, List.length_append, ih,
      List.length_map, List.take_succ, List.map_append, List.sum_append]
    congr 1
    by_cases hn : n < table.length
    · simp [List.getD_eq_getElem?_getD, hn]
    · have hn2 : table.length ≤ n := by omega
      simp [List.getD_eq_getElem?_getD, List.getElem?_eq_none hn2]

/-- C19, as stated, fails: after the rows `10.0.0.5`, `udp`, tag `t1` and then `10.0.0.5`,
`tcp`, tag `t2` are inserted into the new table of 128 buckets, the dump writes the line of
the second row before the line of the first, both in bucket 0; and for a row whose tag is
present and of length zero the dump writes `NULL` for the tag. -/
theorem dump_is_newest_first :
    (hash_table_print sampleDeps
      (hash_table_insert sampleDeps shm.ok
        (hash_table_insert sampleDeps shm.ok emptyTable (cs "10.0.0.5") (cs "udp") none
          (some (cs "t1"))).2
        (cs "10.0.0.5") (cs "tcp") none (some (cs "t2"))).2).2 =
      [{ index := 0, src_ip := cs "10.0.0.5", proto := PROTO_TCP, pattern := cs "NULL",
         tag := cs "t2" },
       { index := 0, src_ip := cs "10.0.0.5", proto := PROTO_UDP, pattern := cs "NULL",
         tag := cs "t1" }] ∧
    (hash_table_print sampleDeps
      (hash_table_insert sampleDeps shm.ok emptyTable (cs "10.0.0.5") (cs "udp") none
        (some [])).2).2 =
      [{ index := 0, src_ip := cs "10.0.0.5", proto := PROTO_UDP, pattern := cs "NULL",
         tag := cs "NULL" }] := by
  refine ⟨by decide, by decide⟩

/-- C19, amended: `hash_table_print` leaves the table as it is and writes one line for each
entry of the buckets below `PERM_HASH_SIZE`, as many lines as the table has entries: the
lines are in increasing order of bucket index, and the lines of one bucket are those of
its chain from the head on, so that the entry inserted last comes first.  A line carries
the bucket index, the address and the protocol code of its entry, the pattern or `NULL`
when the pattern is absent, and the tag or `NULL` when the tag is absent or of length
zero. -/
theorem hash_table_print_lines (D : Deps) (table : hash_table) :
    (hash_table_print D table).1 = table ∧
    (hash_table_print D table).2.Pairwise (fun l1 l2 => l1.index ≤ l2.index) ∧
    (∀ i : Nat, i < D.PERM_HASH_SIZE →
      (hash_table_print D table).2.filter (fun l => decide (l.index = i)) =
        (table.getD i []).map (print_entry i)) ∧
    (∀ l ∈ (hash_table_print D table).2, l.index < D.PERM_HASH_SIZE) ∧
    (table.length = D.PERM_HASH_SIZE →
      (hash_table_print D table).2.length = (table.map List.length).sum) ∧
    (∀ (i : Nat) (np : trusted_list),
      (print_entry i np).index = i ∧ (print_entry i np).src_ip = np.src_ip ∧
      (print_entry i np).proto = np.proto ∧
      (np.pattern = none → (print_entry i np).pattern = cs "NULL") ∧
      (∀ p, np.pattern = some p → (print_entry i np).pattern = p) ∧
      (np.tag = none → (print_entry i np).tag = cs "NULL") ∧
      (np.tag = some [] → (print_entry i np).tag = cs "NULL") ∧
      (∀ t, np.tag = some t → t ≠ [] → (print_entry i np).tag = t)) ∧
    (∀ (src_ip : List Nat) (pattern tag : Option (List Nat)),
      perm_hash D src_ip < table.length → perm_hash D src_ip < D.PERM_HASH_SIZE →
      (hash_table_print D
          (hash_table_insert D shm.ok table src_ip (cs "any") pattern tag).2).2.filter
          (fun l => decide (l.index = perm_hash D src_ip)) =
        print_entry (perm_hash D src_ip)
            { src_ip := src_ip, proto := PROTO_NONE, pattern := pattern, tag := tag } ::
          (hash_table_print D table).2.filter
            (fun l => decide (l.index = perm_hash D src_ip))) := by
  have hfilter : ∀ (t : hash_table) (i : Nat), i < D.PERM_HASH_SIZE →
      (hash_table_print D t).2.filter (fun l => decide (l.index = i)) =
        (t.getD i []).map (print_entry i) := by
    intro t i hi
    unfold hash_table_print
    simp only []
    rw [print_lines_filter, if_pos hi]
  refine ⟨rfl, (print_lines_sorted table D.PERM_HASH_SIZE).1, hfilter table,
    (print_lines_sorted table D.PERM_HASH_SIZE).2, ?_, ?_, ?_⟩
  · intro hlen
    unfold hash_table_print
    simp only []
    rw [print_lines_length, ← hlen, List.take_length]
  · intro i np
    refine ⟨rfl, rfl, rfl, ?_, ?_, ?_, ?_, ?_⟩
    · intro h
      simp [print_entry, h]
    · intro p h
      simp [print_entry, h]
    · intro h
      simp [print_entry, h]
    · intro h
      simp [print_entry, h]
    · intro t h ht
      simp [print_entry, h, ht]
  · intro src_ip pattern tag hlen hperm
    have hins : hash_table_insert D shm.ok table src_ip (cs "any") pattern tag =
        (1, table.set (perm_hash D src_ip)
          ({ src_ip := src_ip, proto := PROTO_NONE, pattern := pattern, tag := tag } ::
            table.getD (perm_hash D src_ip) [])) := by
      rw [hash_table_insert_eq D shm.ok table src_ip (cs "any") pattern tag (by decide)]
      have htok : token_proto (cs "any") = some PROTO_NONE := by decide
      have hnp : (shm.ok.np = false) = False := by simp [shm.ok]
      simp only [hnp, if_false, htok]
      exact hash_table_insert_entry_ok D table PROTO_NONE src_ip pattern tag
    rw [hfilter _ _ hperm, hfilter _ _ hperm, hins]
    simp only []
    rw [getD_set_self _ _ _ hlen]
    rfl

/-- C19 amended, at a concrete input: the dump of the table of 128 buckets that holds the
entry `10.0.0.5`, `any`, tag `peerA` in bucket 0 has one line. -/
theorem hash_table_print_lines_witness :
    (emptyTable.set 0 [plainEntry]).length = sampleDeps.PERM_HASH_SIZE ∧
    (hash_table_print sampleDeps (emptyTable.set 0 [plainEntry])).2.length =
      ((emptyTable.set 0 [plainEntry]).map List.length).sum ∧
    ((emptyTable.set 0 [plainEntry]).map List.length).sum = 1 :=
  ⟨by decide,
    (hash_table_print_lines sampleDeps (emptyTable.set 0 [plainEntry])).2.2.2.2.1
      (by decide),
    by decide⟩

end Permissions
